import Mathlib

/-!
Verification of the Eternity II MPI solver (done.c) against its
natural-language specification.

The development shallowly embeds the solver: tiles, the board, the
constraint checker `valid_move`, the corner classifier
`eh_peca_de_quina` / `separar_pecas_de_quina`, the recursive
backtracking engine `play` (with the process-global control flags, the
static probe counter, the incoming-message mailbox and the outgoing
message log made explicit in a worker state), and the orchestration of
`main` (corner seeding, start-cell scan, the reductions deciding the
run outcome).  Machine integers of the C program only ever hold small
non-negative values in the paths modelled here, so they are embedded as
`Nat`; the C board of tile pointers becomes a grid of optional indices
into the tile arena.
-/

namespace Eternity

/-- A puzzle tile as in `struct tile` of done.c: the four edge colors in
the fixed base orientation (index 0 = North, 1 = East, 2 = South,
3 = West), the current rotation (kept in 0..3 by the program), the
stable id, and the used flag. -/
structure Tile where
  colors : List Nat
  rotation : Nat
  id : Nat
  used : Bool
deriving DecidableEq

instance : Inhabited Tile := ⟨⟨[0, 0, 0, 0], 0, 0, false⟩⟩

/-- `X_COLOR(t, s) = t->colors[(s + 4 - t->rotation) % 4]`: the color the
tile shows on logical side `s` under its current rotation. -/
def xColor (t : Tile) (s : Nat) : Nat :=
  t.colors.getD ((s + 4 - t.rotation) % 4) 0

/-- `N_COLOR`. -/
def nColor (t : Tile) : Nat := xColor t 0

/-- `E_COLOR`. -/
def eColor (t : Tile) : Nat := xColor t 1

/-- `S_COLOR`. -/
def sColor (t : Tile) : Nat := xColor t 2

/-- `W_COLOR`. -/
def wColor (t : Tile) : Nat := xColor t 3

/-- `struct game` of done.c.  `board[x][y]` holds a pointer into the
`tiles` arena in the C code; here it holds the tile's index (`none`
embeds NULL). -/
structure Game where
  size : Nat
  tile_count : Nat
  board : List (List (Option Nat))
  tiles : List Tile
deriving DecidableEq

/-- `game->board[x][y]`. -/
def boardGet (g : Game) (x y : Nat) : Option Nat :=
  (g.board.getD x []).getD y none

/-- `game->board[x][y] = v`. -/
def boardSet (g : Game) (x y : Nat) (v : Option Nat) : Game :=
  { g with board := g.board.set x ((g.board.getD x []).set y v) }

/-- `&game->tiles[i]`. -/
def tileAt (g : Game) (i : Nat) : Tile := g.tiles.getD i default

/-- `game->tiles[i].used`. -/
def usedOf (g : Game) (i : Nat) : Bool := (tileAt g i).used

/-- `game->tiles[i].used = b`. -/
def setUsed (g : Game) (i : Nat) (b : Bool) : Game :=
  { g with tiles := g.tiles.set i { tileAt g i with used := b } }

/-- `game->tiles[i].rotation = r`. -/
def setRotation (g : Game) (i r : Nat) : Game :=
  { g with tiles := g.tiles.set i { tileAt g i with rotation := r } }

/-- One neighbour test of `valid_move`: cell `(a, b)` is occupied and the
occupant's facing color (read by `f`) differs from `c`.  This is the
`board[a][b] != NULL && F_COLOR(board[a][b]) != c` pattern of
done.c lines 172-183. -/
def nbrCheck (g : Game) (a b : Nat) (f : Tile → Nat) (c : Nat) : Bool :=
  match boardGet g a b with
  | some j => f (tileAt g j) != c
  | none => false

/-- done.c `valid_move` (lines 164-186): the early-return chain is the
negation of the disjunction of its eight rejection conditions, in source
order (four board-border checks, then the west, east, north, south
neighbour checks).  A pure predicate: it reads the board and tiles and
writes nothing. -/
def valid_move (g : Game) (x y : Nat) (t : Tile) : Bool :=
  !((x == 0 && wColor t != 0) ||
    (y == 0 && nColor t != 0) ||
    (x == g.size - 1 && eColor t != 0) ||
    (y == g.size - 1 && sColor t != 0) ||
    (decide (0 < x) && nbrCheck g (x - 1) y eColor (wColor t)) ||
    (decide (x < g.size - 1) && nbrCheck g (x + 1) y wColor (eColor t)) ||
    (decide (0 < y) && nbrCheck g x (y - 1) sColor (nColor t)) ||
    (decide (y < g.size - 1) && nbrCheck g x (y + 1) nColor (sColor t)))

/-- The four corner conditions of `eh_peca_de_quina`, in source order:
type 0 = NW (North and West border-colored), 1 = NE, 2 = SW, 3 = SE,
each evaluated with the tile rotated to `rot` (the C loop assigns
`t->rotation = rot` before testing). -/
def corner_cond (t : Tile) (rot ty : Nat) : Bool :=
  if ty == 0 then
    nColor { t with rotation := rot } == 0 && wColor { t with rotation := rot } == 0
  else if ty == 1 then
    nColor { t with rotation := rot } == 0 && eColor { t with rotation := rot } == 0
  else if ty == 2 then
    sColor { t with rotation := rot } == 0 && wColor { t with rotation := rot } == 0
  else
    sColor { t with rotation := rot } == 0 && eColor { t with rotation := rot } == 0

/-- One iteration of the rotation loop of `eh_peca_de_quina`: test the
four corner types in priority order NW, NE, SW, SE at rotation `rot` and
report the first hit. -/
def eh_rot_check (t : Tile) (rot : Nat) : Option (Nat × Nat) :=
  if corner_cond t rot 0 then some (rot, 0)
  else if corner_cond t rot 1 then some (rot, 1)
  else if corner_cond t rot 2 then some (rot, 2)
  else if corner_cond t rot 3 then some (rot, 3)
  else none

/-- done.c `eh_peca_de_quina` (lines 194-224): scan rotations 0..3 in
ascending order, returning the first (rotation, corner type) hit, or
`none` ("not a corner tile").  The C function reports through out
parameters and leaves `t->rotation` at the last value tried; its caller
`separar_pecas_de_quina` saves and restores the rotation, so the
classification is a pure function of the tile, embedded as such. -/
def eh_peca_de_quina (t : Tile) : Option (Nat × Nat) :=
  [0, 1, 2, 3].findSome? (eh_rot_check t)

/-- `struct corner_info` of done.c. -/
structure corner_info where
  tile_id : Nat
  rotation : Nat
  corner_type : Nat
deriving DecidableEq

instance : Inhabited corner_info := ⟨⟨0, 0, 0⟩⟩

/-- done.c `separar_pecas_de_quina` (lines 231-276): classify every tile
in ascending id order, collecting the hits in that order.  (The printing
is I/O only; the rotation save/restore makes the loop body pure.) -/
def separar_pecas_de_quina (g : Game) : List corner_info :=
  (List.range g.tile_count).filterMap (fun i =>
    (eh_peca_de_quina (tileAt g i)).map (fun c =>
      { tile_id := (tileAt g i).id, rotation := c.1, corner_type := c.2 }))

/-- The per-process mutable state surrounding `play`: the MPI rank and
communicator size, the process-global flags `global_stop`,
`global_solution_found` and `solution_owner`, the function-static
`check_counter`, plus an explicit model of the messaging substrate: the
mailbox of stop notifications already available to `MPI_Iprobe`
(payload = sender's rank, consumed front first), and the log of stop
notifications this process has sent, as (destination, payload) pairs in
send order. -/
structure WState where
  rank : Nat
  nprocs : Nat
  global_stop : Bool
  global_solution_found : Bool
  solution_owner : Int
  check_counter : Nat
  inbox : List Nat
  sent : List (Nat × Nat)
deriving DecidableEq

/-- The send loop of done.c lines 340-344: one `MPI_Send` of own rank
(tag 999) to every process other than self, in ascending destination
order. -/
def peerMsgs (w : WState) : List (Nat × Nat) :=
  ((List.range w.nprocs).filter (fun p => p != w.rank)).map (fun p => (p, w.rank))

/-- done.c lines 337-344: set `global_stop` and send the stop
notification to every peer. -/
def stopAndBroadcast (w : WState) : WState :=
  { w with global_stop := true, sent := w.sent ++ peerMsgs w }

/-- The type of the recursive search: game state, worker state, target
cell in, (result, game state, worker state) out. -/
abbrev SearchFn := Game → WState → Nat → Nat → Bool × Game × WState

/-- done.c lines 324-346, the part of the rotation-loop body after a
successful placement: compute the next cell `(nx, ny)` (`ny == size`
meaning the placement completed the board), and on completion or on
recursive success set the stop flag, broadcast, and propagate success;
otherwise hand back the recursive failure (the caller clears the
cell). -/
def descendStep (descend : SearchFn) (g : Game) (w : WState) (x y : Nat) :
    Bool × Game × WState :=
  let nx := if x < g.size - 1 then x + 1 else if y < g.size - 1 then 0 else g.size
  let ny := if x < g.size - 1 then y else if y < g.size - 1 then y + 1 else g.size
  if ny == g.size then (true, g, stopAndBroadcast w)
  else
    let res := descend g w nx ny
    if res.1 then (true, res.2.1, stopAndBroadcast res.2.2)
    else (false, res.2.1, res.2.2)

/-- done.c lines 318-351, the rotation loop for tile `i` (already marked
used by the tile loop): for each remaining rotation, assign it, test
`valid_move`, on success place the tile at `(x, y)` and descend; if the
descent fails clear the cell and continue with the next rotation. -/
def tryRots (descend : SearchFn) (x y i : Nat) :
    Game → WState → List Nat → Bool × Game × WState
  | g, w, [] => (false, g, w)
  | g, w, r :: rs =>
    let g1 := setRotation g i r
    if valid_move g1 x y (tileAt g1 i) then
      let res := descendStep descend (boardSet g1 x y (some i)) w x y
      if res.1 then res
      else tryRots descend x y i (boardSet res.2.1 x y none) res.2.2 rs
    else tryRots descend x y i g1 w rs

/-- done.c lines 311-353, the tile loop: skip used tiles; otherwise mark
the tile used, run the rotation loop, and on failure un-mark it and
continue with the next tile; exhaustion reports failure. -/
def tryTiles (descend : SearchFn) (x y : Nat) :
    Game → WState → List Nat → Bool × Game × WState
  | g, w, [] => (false, g, w)
  | g, w, i :: is =>
    if usedOf g i then tryTiles descend x y g w is
    else
      let res := tryRots descend x y i (setUsed g i true) w [0, 1, 2, 3]
      if res.1 then res
      else tryTiles descend x y (setUsed res.2.1 i false) res.2.2 is

/-- done.c `play` (lines 283-355), with fuel making the recursion
manifestly total (the C recursion's depth is bounded because every
recursive entry follows a placement that marked one more tile used; all
theorems either quantify over the fuel or supply enough of it).  Entry
order as in the source: the `global_stop` early return; the static
counter increment; every 1000th entry a non-blocking probe that, when a
notification is pending, consumes it, records the sender and aborts; the
`global_solution_found` early return; then the tile loop over
`0 .. tile_count - 1`. -/
def play : Nat → SearchFn
  | 0 => fun g w _ _ => (false, g, w)
  | fuel + 1 => fun g w x y =>
    if w.global_stop then (false, g, w)
    else
      let w1 := { w with check_counter := w.check_counter + 1 }
      if w1.check_counter % 1000 == 0 && !w1.inbox.isEmpty then
        (false, g, { w1 with inbox := w1.inbox.tail,
                             global_solution_found := true,
                             solution_owner := Int.ofNat (w1.inbox.headD 0) })
      else if w1.global_solution_found then (false, g, w1)
      else tryTiles (play fuel) x y g w1 (List.range g.tile_count)

/-- The textual puzzle input: board dimension and the `N²` records of
four base colors (the color-count bound is only asserted, never used). -/
structure Puzzle where
  size : Nat
  colorRows : List (List Nat)
deriving DecidableEq

/-- done.c `initialize` (lines 111-146): empty board, tiles with id = index,
rotation 0, unused, colors from the input. -/
def initialize_game (p : Puzzle) : Game :=
  { size := p.size
    tile_count := p.size * p.size
    board := List.replicate p.size (List.replicate p.size none)
    tiles := (List.range (p.size * p.size)).map (fun i =>
      { colors := p.colorRows.getD i [], rotation := 0, id := i, used := false }) }

/-- main lines 454-460: the board position implied by a corner type
(0 = NW → (0,0), 1 = NE → (size-1,0), 2 = SW → (0,size-1),
3 = SE → (size-1,size-1); the C switch leaves (0,0) for other values). -/
def corner_pos (sz ty : Nat) : Nat × Nat :=
  if ty == 0 then (0, 0)
  else if ty == 1 then (sz - 1, 0)
  else if ty == 2 then (0, sz - 1)
  else if ty == 3 then (sz - 1, sz - 1)
  else (0, 0)

/-- main lines 443-466: clear the board and all used flags, then place the
assigned corner tile, rotated as classified and marked used, at its
corner position. -/
def seed_board (g : Game) (c : corner_info) : Game :=
  let g0 : Game :=
    { g with board := List.replicate g.size (List.replicate g.size none)
             tiles := g.tiles.map (fun t => { t with used := false }) }
  let g1 := setUsed (setRotation g0 c.tile_id c.rotation) c.tile_id true
  boardSet g1 (corner_pos g0.size c.corner_type).1 (corner_pos g0.size c.corner_type).2
    (some c.tile_id)

/-- main lines 471-481: the first empty cell, scanning rows top to bottom
(`y` outer) and left to right (`x` inner) over the full board. -/
def find_start (g : Game) : Option (Nat × Nat) :=
  (List.range g.size).findSome? (fun y =>
    (List.range g.size).findSome? (fun x =>
      if boardGet g x y == none then some (x, y) else none))

/-- The process-global state at worker start: fresh flags, static counter
zero, empty mailbox and send log. -/
def init_wstate (r np : Nat) : WState :=
  { rank := r, nprocs := np, global_stop := false, global_solution_found := false
    solution_owner := -1, check_counter := 0, inbox := [], sent := [] }

/-- One active worker's run in isolation (empty mailbox, as in any run in
which no peer succeeds first): seed the assigned corner
(`corners[rank]`), locate the first empty cell, and run the search
(main lines 440-487).  Fuel `tile_count + 1` bounds the recursion depth,
which the search never exceeds. -/
def worker_run (g : Game) (corners : List corner_info) (r np : Nat) :
    Bool × Game × WState :=
  let gs := seed_board g (corners.getD r default)
  match find_start gs with
  | some st => play (gs.tile_count + 1) gs (init_wstate r np) st.1 st.2
  | none => (false, gs, init_wstate r np)

/-- Number of admissible corners discovered from the loaded puzzle. -/
def num_corners (p : Puzzle) : Nat :=
  (separar_pecas_de_quina (initialize_game p)).length

/-- main line 404: `effective_processes = min(size, num_corners)`. -/
def effective_processes (np nc : Nat) : Nat := if np < nc then np else nc

/-- Worker `r`'s `local_solution` value. -/
def worker_local_solution (p : Puzzle) (np r : Nat) : Bool :=
  (worker_run (initialize_game p) (separar_pecas_de_quina (initialize_game p)) r np).1

/-- The `MPI_Allreduce` MAX of the active workers' `local_solution` flags
(main line 497).  Stop notifications originate only from a worker that
has itself completed the board, so in a run where no worker succeeds
every mailbox stays empty and each worker's search is exactly its
isolated run; the reduction is the disjunction of those flags. -/
def global_result (p : Puzzle) (np : Nat) : Bool :=
  (List.range (effective_processes np (num_corners p))).any (worker_local_solution p np)

/-- The process exit status (main lines 394-401 and 522-534): 1 from the
early zero-corner return, otherwise 0 iff the reduced result reported a
solution (rank 0, which is always active, seeds the final broadcast). -/
def run_exit (p : Puzzle) (np : Nat) : Nat :=
  if num_corners p == 0 then 1
  else if global_result p np then 0 else 1

/-- main line 504: a worker's contribution to the winner reduction — its
own rank if it personally produced a complete board, else the sentinel
`effective_processes`. -/
def has_solution_contrib (localSol : Bool) (r eff : Nat) : Nat :=
  if localSol then r else eff

/-- main line 505: the `MPI_Allreduce` MIN of the active workers'
contributions; `flags` lists the active workers' `local_solution` values
indexed by rank, so `flags.length` is the number of active workers and
also the sentinel. -/
def winner_rank (flags : List Bool) : Nat :=
  ((List.range flags.length).map (fun r =>
    has_solution_contrib (flags.getD r false) r flags.length)).foldr min flags.length

/-- main line 508: the guard `local_solution && rank == winner_rank`
under which a worker prints the solution. -/
def prints_solution (flags : List Bool) (r : Nat) : Bool :=
  flags.getD r false && (r == winner_rank flags)

/-- The ordered list of `MPI_COMM_WORLD` collective call sites rank `r`
executes, labelled: 0 = Bcast of num_corners (line 394); 1 and 2 = Bcast
of board size and tile count (lines 417-418 and 431-432, active ranks
only); 3 and 4 = Bcast of the tiles and the corner list (lines 436-437,
active ranks only); 5 = MPI_Comm_split (line 493, active ranks only);
6 = the final Bcast of solution_found (line 523).  A collective over
`MPI_COMM_WORLD` must be called by every rank of the communicator. -/
def world_collective_trace (p : Puzzle) (np r : Nat) : List Nat :=
  if num_corners p == 0 then [0]
  else if r < effective_processes np (num_corners p) then [0, 1, 2, 3, 4, 5, 6]
  else [0, 6]

/-! ### Spec-side definitions

These follow the specification's words, for comparison with the
definitions above. -/

/-- Spec §4.1 condition (i): every board-boundary side of the tile shows
the border-sentinel color 0. -/
def border_ok (g : Game) (x y : Nat) (t : Tile) : Prop :=
  (x = 0 → wColor t = 0) ∧ (y = 0 → nColor t = 0) ∧
  (x = g.size - 1 → eColor t = 0) ∧ (y = g.size - 1 → sColor t = 0)

/-- Spec §4.1 condition (ii): every already-occupied orthogonal neighbour
shows, on its facing side, the same color as the tile's facing side. -/
def neighbors_ok (g : Game) (x y : Nat) (t : Tile) : Prop :=
  (∀ j, 0 < x → boardGet g (x - 1) y = some j → eColor (tileAt g j) = wColor t) ∧
  (∀ j, x < g.size - 1 → boardGet g (x + 1) y = some j → wColor (tileAt g j) = eColor t) ∧
  (∀ j, 0 < y → boardGet g x (y - 1) = some j → sColor (tileAt g j) = nColor t) ∧
  (∀ j, y < g.size - 1 → boardGet g x (y + 1) = some j → nColor (tileAt g j) = sColor t)

/-- Spec §4.4 (claim C3): the candidate list at a cell — every unused tile
id in ascending order, each paired with rotations 0..3, flattened in
ascending (tile id, rotation) lexicographic order. -/
def spec_cand_list (g : Game) : List (Nat × Nat) :=
  ((List.range g.tile_count).filter (fun i => !(usedOf g i))).flatMap
    (fun i => [0, 1, 2, 3].map (fun r => (i, r)))

/-- Spec §4.4 (claim C3): try an explicit candidate list in order: set
the candidate's rotation, test `can_place`; on the first valid candidate
mark it used, place it and advance; if the descent fails un-mark it,
clear the cell and continue with the next candidate. -/
def spec_try (descend : SearchFn) (x y : Nat) :
    Game → WState → List (Nat × Nat) → Bool × Game × WState
  | g, w, [] => (false, g, w)
  | g, w, c :: cs =>
    let g1 := setRotation g c.1 c.2
    if valid_move g1 x y (tileAt g1 c.1) then
      let res := descendStep descend (boardSet (setUsed g1 c.1 true) x y (some c.1)) w x y
      if res.1 then res
      else spec_try descend x y (setUsed (boardSet res.2.1 x y none) c.1 false) res.2.2 cs
    else spec_try descend x y g1 w cs

/-- Spec §4.2 (claim C7): the 16 (rotation, corner type) combinations in
scan order — rotations ascending, and NW, NE, SW, SE within each. -/
def corner_combos : List (Nat × Nat) :=
  [0, 1, 2, 3].flatMap (fun rot => [0, 1, 2, 3].map (fun ty => (rot, ty)))

/-- Spec §4.2 (claim C7): `classify_corner` as literally described — the
first satisfying combination in scan order, if any. -/
def classify_corner_spec (t : Tile) : Option (Nat × Nat) :=
  corner_combos.find? (fun c => corner_cond t c.1 c.2)

/-- Spec glossary (claim C7): under rotation `rot`, side `s` and its
clockwise neighbour `(s+1) % 4` are both border-colored — "some rotation
makes two orthogonally adjacent sides both border-colored". -/
def adj_pair_zero (t : Tile) (rot s : Nat) : Prop :=
  xColor { t with rotation := rot } s = 0 ∧
  xColor { t with rotation := rot } ((s + 1) % 4) = 0

/-- The board of a complete assignment: every cell `(x, y)` holds the
tile of the row-major assignment entry `y * size + x`, each assigned
tile rotated as assigned and marked used. -/
def apply_assign (p : Puzzle) (assign : List (Nat × Nat)) : Game :=
  let g0 := initialize_game p
  { g0 with
    tiles := g0.tiles.map (fun t =>
      { t with used := true,
               rotation := ((assign.find? (fun pr => pr.1 == t.id)).getD (t.id, t.rotation)).2 })
    board := (List.range p.size).map (fun x =>
      (List.range p.size).map (fun y => some (assign.getD (y * p.size + x) (0, 0)).1)) }

/-- Spec side (claim C2): `assign`, a row-major list of (tile id,
rotation) pairs, is a complete valid tiling of puzzle `p` extending the
seed described by `c`: it covers all `size²` cells, uses every tile
exactly once, places `c`'s tile with `c`'s rotation at `c`'s corner
position, and every cell of the fully assigned board satisfies the
program's own placement predicate `valid_move`. -/
def tiling_ok (p : Puzzle) (c : corner_info) (assign : List (Nat × Nat)) : Bool :=
  let sz := p.size
  let gf := apply_assign p assign
  assign.length == sz * sz &&
  (List.range (sz * sz)).all (fun i => assign.countP (fun pr => pr.1 == i) == 1) &&
  (assign.getD ((corner_pos sz c.corner_type).2 * sz + (corner_pos sz c.corner_type).1) (0, 0)
      == (c.tile_id, c.rotation)) &&
  (List.range sz).all (fun y => (List.range sz).all (fun x =>
    valid_move gf x y (tileAt gf ((assign.getD (y * sz + x) (0, 0)).1))))

/-! ### Concrete instances used by counterexamples and witnesses -/

/-- 2×2 puzzle in which every tile is all-border (all four colors 0);
every tile classifies as a NW corner at rotation 0, and any seeded board
completes trivially. -/
def P0 : Puzzle := ⟨2, [[0, 0, 0, 0], [0, 0, 0, 0], [0, 0, 0, 0], [0, 0, 0, 0]]⟩

/-- 2×2 puzzle in which every tile has North and East border-colored and
color 1 on South and West in the base orientation; every tile classifies
as a NE corner (type 1) at rotation 0, so every active worker seeds the
top-right cell (1, 0). -/
def P1 : Puzzle := ⟨2, [[0, 0, 1, 1], [0, 0, 1, 1], [0, 0, 1, 1], [0, 0, 1, 1]]⟩

/-- A complete valid tiling of `P1` extending the seed (tile 0, rotation
0, at the NE corner): cells in row-major order (0,0), (1,0), (0,1),
(1,1). -/
def assign1 : List (Nat × Nat) := [(1, 3), (0, 0), (2, 2), (3, 1)]

/-- The state worker 0 of `P1` reaches when the search first targets the
pre-seeded corner cell (1, 0): tile 1 (first valid candidate, rotation 3)
placed at (0, 0), the seeded corner tile 0 still at (1, 0) and marked
used, tiles 2 and 3 unused. -/
def gCE : Game :=
  { size := 2, tile_count := 4
    board := [[some 1, none], [some 0, none]]
    tiles := [⟨[0, 0, 1, 1], 0, 0, true⟩, ⟨[0, 0, 1, 1], 3, 1, true⟩,
              ⟨[0, 0, 1, 1], 0, 2, false⟩, ⟨[0, 0, 1, 1], 0, 3, false⟩] }

/-- A board with the all-border tile 0 placed at (0, 0); tiles 1..3
unused, all colors 0. -/
def gC8 : Game :=
  { size := 2, tile_count := 4
    board := [[some 0, none], [none, none]]
    tiles := [⟨[0, 0, 0, 0], 0, 0, true⟩, ⟨[0, 0, 0, 0], 0, 1, false⟩,
              ⟨[0, 0, 0, 0], 0, 2, false⟩, ⟨[0, 0, 0, 0], 0, 3, false⟩] }

/-! ## List helpers -/

theorem listGetD_set_ne {α : Type} : ∀ (l : List α) (i j : Nat), i ≠ j →
    ∀ (a d : α), (l.set i a).getD j d = l.getD j d := by
  intro l
  induction l with
  | nil => intro i j _ a d; rfl
  | cons hd tl ih =>
    intro i j hij a d
    cases i with
    | zero =>
      cases j with
      | zero => exact absurd rfl hij
      | succ j => rfl
    | succ i =>
      cases j with
      | zero => rfl
      | succ j => exact ih i j (fun h => hij (by rw [h])) a d

theorem listGetD_set_self {α : Type} : ∀ (l : List α) (i : Nat), i < l.length →
    ∀ (a d : α), (l.set i a).getD i d = a := by
  intro l
  induction l with
  | nil => intro i h a d; simp at h
  | cons hd tl ih =>
    intro i h a d
    cases i with
    | zero => rfl
    | succ i => exact ih i (by simpa using h) a d

theorem listSet_oob {α : Type} : ∀ (l : List α) (i : Nat), l.length ≤ i →
    ∀ (a : α), l.set i a = l := by
  intro l
  induction l with
  | nil => intro i _ a; rfl
  | cons hd tl ih =>
    intro i h a
    cases i with
    | zero => simp at h
    | succ i => simpa using ih i (by simpa using h) a

theorem listSet_getD_self {α : Type} : ∀ (l : List α) (i : Nat) (d : α),
    l.set i (l.getD i d) = l := by
  intro l
  induction l with
  | nil => intro i d; rfl
  | cons hd tl ih =>
    intro i d
    cases i with
    | zero => rfl
    | succ i => simpa using ih i d

/-! ## Basic facts about the state accessors and updaters -/

theorem size_setUsed (g : Game) (i : Nat) (b : Bool) : (setUsed g i b).size = g.size := rfl

theorem size_setRotation (g : Game) (i r : Nat) : (setRotation g i r).size = g.size := rfl

theorem size_boardSet (g : Game) (x y : Nat) (v : Option Nat) :
    (boardSet g x y v).size = g.size := rfl

theorem tile_count_setUsed (g : Game) (i : Nat) (b : Bool) :
    (setUsed g i b).tile_count = g.tile_count := rfl

theorem tile_count_setRotation (g : Game) (i r : Nat) :
    (setRotation g i r).tile_count = g.tile_count := rfl

theorem tile_count_boardSet (g : Game) (x y : Nat) (v : Option Nat) :
    (boardSet g x y v).tile_count = g.tile_count := rfl

theorem board_setUsed (g : Game) (i : Nat) (b : Bool) : (setUsed g i b).board = g.board := rfl

theorem board_setRotation (g : Game) (i r : Nat) :
    (setRotation g i r).board = g.board := rfl

theorem tiles_boardSet (g : Game) (x y : Nat) (v : Option Nat) :
    (boardSet g x y v).tiles = g.tiles := rfl

theorem boardGet_setUsed (g : Game) (i : Nat) (b : Bool) (x y : Nat) :
    boardGet (setUsed g i b) x y = boardGet g x y := rfl

theorem boardGet_setRotation (g : Game) (i r : Nat) (x y : Nat) :
    boardGet (setRotation g i r) x y = boardGet g x y := rfl

theorem tileAt_boardSet (g : Game) (x y : Nat) (v : Option Nat) (i : Nat) :
    tileAt (boardSet g x y v) i = tileAt g i := rfl

theorem tileAt_setUsed_ne (g : Game) (i j : Nat) (b : Bool) (h : i ≠ j) :
    tileAt (setUsed g i b) j = tileAt g j :=
  listGetD_set_ne g.tiles i j h _ _

theorem tileAt_setRotation_ne (g : Game) (i j r : Nat) (h : i ≠ j) :
    tileAt (setRotation g i r) j = tileAt g j :=
  listGetD_set_ne g.tiles i j h _ _

theorem tileAt_setUsed_self (g : Game) (i : Nat) (b : Bool) (h : i < g.tiles.length) :
    tileAt (setUsed g i b) i = { tileAt g i with used := b } :=
  listGetD_set_self g.tiles i h _ _

theorem tileAt_setRotation_self (g : Game) (i r : Nat) (h : i < g.tiles.length) :
    tileAt (setRotation g i r) i = { tileAt g i with rotation := r } :=
  listGetD_set_self g.tiles i h _ _

theorem setUsed_oob (g : Game) (i : Nat) (b : Bool) (h : g.tiles.length ≤ i) :
    setUsed g i b = g := by
  show Game.mk g.size g.tile_count g.board _ = g
  rw [listSet_oob g.tiles i h]

theorem setRotation_oob (g : Game) (i r : Nat) (h : g.tiles.length ≤ i) :
    setRotation g i r = g := by
  show Game.mk g.size g.tile_count g.board _ = g
  rw [listSet_oob g.tiles i h]

theorem tileAt_oob (g : Game) (i : Nat) (h : g.tiles.length ≤ i) :
    tileAt g i = default := by
  unfold tileAt
  rw [List.getD_eq_getElem?_getD, List.getElem?_eq_none (by simpa using h)]
  rfl

theorem tile_eta (t : Tile) : Tile.mk t.colors t.rotation t.id t.used = t := rfl

theorem setUsed_id (g : Game) (i : Nat) (h : usedOf g i = false) : setUsed g i false = g := by
  show Game.mk g.size g.tile_count g.board _ = g
  have : { tileAt g i with used := false } = tileAt g i := by
    unfold usedOf at h
    cases ht : tileAt g i
    rw [ht] at h
    simp_all
  rw [this]
  rw [show g.tiles.set i (tileAt g i) = g.tiles from listSet_getD_self g.tiles i default]

theorem setUsed_setUsed (g : Game) (i : Nat) (b c : Bool) :
    setUsed (setUsed g i b) i c = setUsed g i c := by
  by_cases h : i < g.tiles.length
  · show Game.mk _ _ _ _ = Game.mk _ _ _ _
    rw [tileAt_setUsed_self g i b h]
    show Game.mk g.size g.tile_count g.board ((g.tiles.set i _).set i _) = _
    rw [List.set_set]
  · rw [setUsed_oob g i b (by omega)]

theorem setUsed_setRotation_comm (g : Game) (i r : Nat) (b : Bool) :
    setUsed (setRotation g i r) i b = setRotation (setUsed g i b) i r := by
  by_cases h : i < g.tiles.length
  · show Game.mk _ _ _ _ = Game.mk _ _ _ _
    rw [tileAt_setRotation_self g i r h, tileAt_setUsed_self g i b h]
    show Game.mk g.size g.tile_count g.board ((g.tiles.set i _).set i _) =
      Game.mk g.size g.tile_count g.board ((g.tiles.set i _).set i _)
    rw [List.set_set, List.set_set]
  · rw [setRotation_oob g i r (by omega), setUsed_oob g i b (by omega),
      setRotation_oob g i r (by omega)]

theorem usedOf_setUsed_self (g : Game) (i : Nat) (b : Bool) (h : i < g.tiles.length) :
    usedOf (setUsed g i b) i = b := by
  unfold usedOf
  rw [tileAt_setUsed_self g i b h]

theorem usedOf_setUsed_ne (g : Game) (i j : Nat) (b : Bool) (h : i ≠ j) :
    usedOf (setUsed g i b) j = usedOf g j := by
  unfold usedOf
  rw [tileAt_setUsed_ne g i j b h]

theorem usedOf_setRotation (g : Game) (i r : Nat) (j : Nat) :
    usedOf (setRotation g i r) j = usedOf g j := by
  unfold usedOf
  by_cases h : i = j
  · subst h
    by_cases hl : i < g.tiles.length
    · rw [tileAt_setRotation_self g i r hl]
    · rw [setRotation_oob g i r (by omega)]
  · rw [tileAt_setRotation_ne g i j r h]

theorem usedOf_boardSet (g : Game) (x y : Nat) (v : Option Nat) (j : Nat) :
    usedOf (boardSet g x y v) j = usedOf g j := rfl

theorem boardGet_boardSet_ne (g : Game) (x y a b : Nat) (v : Option Nat)
    (h : ¬(a = x ∧ b = y)) : boardGet (boardSet g x y v) a b = boardGet g a b := by
  unfold boardGet boardSet
  by_cases hax : a = x
  · subst hax
    have hb : b ≠ y := fun hh => h ⟨rfl, hh⟩
    by_cases hl : a < g.board.length
    · show ((g.board.set a _).getD a []).getD b none = _
      rw [listGetD_set_self g.board a hl]
      exact listGetD_set_ne _ y b (fun hh => hb hh.symm) _ _
    · show ((g.board.set a _).getD a []).getD b none = _
      rw [listSet_oob g.board a (by omega)]
  · show ((g.board.set x _).getD a []).getD b none = _
    rw [listGetD_set_ne g.board x a (fun hh => hax hh.symm) _ _]

theorem boardSet_boardSet (g : Game) (x y : Nat) (v u : Option Nat) :
    boardSet (boardSet g x y v) x y u = boardSet g x y u := by
  unfold boardSet
  by_cases hl : x < g.board.length
  · show Game.mk _ _ ((g.board.set x _).set x _) _ = Game.mk _ _ _ _
    rw [List.set_set]
    show Game.mk _ _ (g.board.set x _) _ = Game.mk _ _ _ _
    rw [show (Game.mk g.size g.tile_count (g.board.set x ((g.board.getD x []).set y v))
      g.tiles).board.getD x [] = (g.board.getD x []).set y v from
      listGetD_set_self g.board x hl _ _]
    rw [List.set_set]
  · show Game.mk _ _ _ _ = Game.mk _ _ _ _
    rw [show g.board.set x ((g.board.getD x []).set y v) = g.board from
      listSet_oob g.board x (by omega) _]

theorem boardSet_setUsed_comm (g : Game) (i : Nat) (b : Bool) (x y : Nat) (v : Option Nat) :
    boardSet (setUsed g i b) x y v = setUsed (boardSet g x y v) i b := rfl

theorem boardSet_setRotation_comm (g : Game) (i r x y : Nat) (v : Option Nat) :
    boardSet (setRotation g i r) x y v = setRotation (boardSet g x y v) i r := rfl

/-! ## The characterization of valid_move (claims C1 and C8) -/

theorem border_cond_iff (a c : Nat) : ((a == 0 && (c != 0)) = false) ↔ (a = 0 → c = 0) := by
  rcases eq_or_ne a 0 with h | h <;> simp [h]

theorem nbr_cond_iff (g : Game) (a b : Nat) (f : Tile → Nat) (c : Nat) (q : Prop)
    [Decidable q] :
    ((decide q && nbrCheck g a b f c) = false) ↔
      (∀ j, q → boardGet g a b = some j → f (tileAt g j) = c) := by
  cases hW : boardGet g a b with
  | none => simp [nbrCheck, hW]
  | some j => by_cases hq : q <;> simp [nbrCheck, hW, hq]

theorem valid_move_iff (g : Game) (x y : Nat) (t : Tile) :
    valid_move g x y t = true ↔ border_ok g x y t ∧ neighbors_ok g x y t := by
  rw [valid_move, Bool.not_eq_true']
  rw [Bool.or_eq_false_iff, Bool.or_eq_false_iff, Bool.or_eq_false_iff,
    Bool.or_eq_false_iff, Bool.or_eq_false_iff, Bool.or_eq_false_iff, Bool.or_eq_false_iff]
  rw [border_cond_iff x (wColor t), border_cond_iff y (nColor t)]
  rw [show ((x == g.size - 1 && (eColor t != 0)) = false) ↔ (x = g.size - 1 → eColor t = 0) by
    rcases eq_or_ne x (g.size - 1) with h | h <;> simp [h]]
  rw [show ((y == g.size - 1 && (sColor t != 0)) = false) ↔ (y = g.size - 1 → sColor t = 0) by
    rcases eq_or_ne y (g.size - 1) with h | h <;> simp [h]]
  rw [nbr_cond_iff g (x - 1) y eColor (wColor t) (0 < x),
    nbr_cond_iff g (x + 1) y wColor (eColor t) (x < g.size - 1),
    nbr_cond_iff g x (y - 1) sColor (nColor t) (0 < y),
    nbr_cond_iff g x (y + 1) nColor (sColor t) (y < g.size - 1)]
  unfold border_ok neighbors_ok
  tauto

/-- Claim C1: for every board, in-bounds coordinates (x, y) and tile,
`valid_move` returns true iff (i) every board-boundary side of the tile
at (x, y) shows the border-sentinel color 0 under the tile's current
rotation, and (ii) for every already-occupied orthogonal neighbour, the
neighbour's facing edge color equals the tile's facing edge color.  The
check is embedded as a pure function — it reads and never mutates the
board or the tile, exactly as the C function, which performs no
store. -/
theorem valid_move_characterization (g : Game) (x y : Nat) (t : Tile)
    (hx : x < g.size) (hy : y < g.size) :
    valid_move g x y t = true ↔ border_ok g x y t ∧ neighbors_ok g x y t :=
  valid_move_iff g x y t

theorem valid_move_characterization_witness :
    (0 : Nat) < 2 ∧ (0 : Nat) < 2 ∧
      (valid_move gC8 0 1 (tileAt gC8 1) = true ↔
        border_ok gC8 0 1 (tileAt gC8 1) ∧ neighbors_ok gC8 0 1 (tileAt gC8 1)) :=
  ⟨by decide, by decide,
    valid_move_characterization gC8 0 1 (tileAt gC8 1) (by decide) (by decide)⟩

/-- Claim C8 (counterexample): `valid_move` accepts a placement in which
the candidate tile's side facing an already-occupied neighbour shows
color 0: on the 2×2 board `gC8`, the all-border tile 0 occupies (0, 0)
and the all-border candidate tile 1 is accepted at (1, 0), its west side
— facing the occupant — showing the sentinel 0 (as does the occupant's
east side), even though that shared edge is interior, not on the outer
boundary. -/
theorem sentinel_zero_match_accepted :
    valid_move gC8 1 0 (tileAt gC8 1) = true ∧ boardGet gC8 0 0 = some 0 ∧
      wColor (tileAt gC8 1) = 0 ∧ eColor (tileAt gC8 0) = 0 := by
  decide

/-- Claim C8 (amended): the border-sentinel color 0 is matched against a
neighbour like any other color.  `valid_move` only requires the
candidate's side facing an already-occupied neighbour to equal that
neighbour's facing side; in particular it accepts placements in which
both facing interior sides show color 0, so an accepted placement may
show color 0 on a side that does not face the board's outer boundary.
First conjunct: accepted placements equalize facing colors (west
neighbour case, the general equality with no non-zero requirement);
second conjunct: the concrete accepted zero-zero interior match. -/
theorem sentinel_matched_like_any_color :
    (∀ (g : Game) (x y : Nat) (t : Tile) (j : Nat), 0 < x →
        boardGet g (x - 1) y = some j → valid_move g x y t = true →
        eColor (tileAt g j) = wColor t) ∧
      (valid_move gC8 1 0 (tileAt gC8 1) = true ∧ wColor (tileAt gC8 1) = 0 ∧
        eColor (tileAt gC8 0) = 0) := by
  constructor
  · intro g x y t j hx hb hv
    exact ((valid_move_iff g x y t).mp hv).2.1 j hx hb
  · exact ⟨by decide, by decide, by decide⟩

theorem sentinel_matched_like_any_color_witness :
    (0 : Nat) < 1 ∧ boardGet gC8 0 0 = some 0 ∧
      valid_move gC8 1 0 (tileAt gC8 1) = true ∧
      eColor (tileAt gC8 0) = wColor (tileAt gC8 1) :=
  ⟨by decide, by decide, by decide,
    sentinel_matched_like_any_color.1 gC8 1 0 (tileAt gC8 1) 0 (by decide) (by decide)
      (by decide)⟩

/-! ## The corner classifier (claim C7) -/

theorem eh_rot_check_eq_find (t : Tile) (rot : Nat) :
    eh_rot_check t rot =
      ([0, 1, 2, 3].map (fun ty => (rot, ty))).find? (fun c => corner_cond t c.1 c.2) := by
  cases h0 : corner_cond t rot 0 <;> cases h1 : corner_cond t rot 1 <;>
    cases h2 : corner_cond t rot 2 <;> cases h3 : corner_cond t rot 3 <;>
      simp [eh_rot_check, List.find?, h0, h1, h2, h3]

theorem find?_flatMap {α β : Type} (l : List α) (f : α → List β) (p : β → Bool) :
    (l.flatMap f).find? p = l.findSome? (fun a => (f a).find? p) := by
  induction l with
  | nil => rfl
  | cons hd tl ih =>
    rw [List.flatMap_cons, List.find?_append, List.findSome?_cons, ih]
    cases h : (f hd).find? p <;> simp [h, Option.orElse]

theorem eh_peca_eq_spec (t : Tile) : eh_peca_de_quina t = classify_corner_spec t := by
  have hfun : eh_rot_check t = fun rot =>
      ([0, 1, 2, 3].map (fun ty => (rot, ty))).find? (fun c => corner_cond t c.1 c.2) :=
    funext (eh_rot_check_eq_find t)
  rw [classify_corner_spec, corner_combos, find?_flatMap, eh_peca_de_quina, hfun]

theorem mem_list4 (n : Nat) : n ∈ ([0, 1, 2, 3] : List Nat) ↔ n < 4 := by
  simp
  omega

theorem corner_cond_ty0 (t : Tile) (rot : Nat) :
    corner_cond t rot 0 = true ↔ adj_pair_zero t rot 3 := by
  simp [corner_cond, adj_pair_zero, nColor, wColor]
  exact and_comm

theorem corner_cond_ty1 (t : Tile) (rot : Nat) :
    corner_cond t rot 1 = true ↔ adj_pair_zero t rot 0 := by
  simp [corner_cond, adj_pair_zero, nColor, eColor]

theorem corner_cond_ty2 (t : Tile) (rot : Nat) :
    corner_cond t rot 2 = true ↔ adj_pair_zero t rot 2 := by
  simp [corner_cond, adj_pair_zero, sColor, wColor]

theorem corner_cond_ty3 (t : Tile) (rot : Nat) :
    corner_cond t rot 3 = true ↔ adj_pair_zero t rot 1 := by
  simp [corner_cond, adj_pair_zero, sColor, eColor]
  exact and_comm

/-- Claim C7: `eh_peca_de_quina` equals the spec's `classify_corner`: it
scans rotations 0..3 in ascending order, tests the corner types in the
fixed priority order NW, NE, SW, SE at each rotation, and returns the
first satisfying (rotation, corner type) combination of the 16, or
reports "not a corner tile" (`none`) when none satisfies (first
conjunct: the function is exactly the first-hit scan over the 16
combinations in that order); and it returns a match if and only if some
rotation makes two orthogonally adjacent sides both border-colored
(second conjunct). -/
theorem classify_corner_correct (t : Tile) :
    eh_peca_de_quina t = classify_corner_spec t ∧
      ((eh_peca_de_quina t).isSome = true ↔
        ∃ rot, rot < 4 ∧ ∃ s, s < 4 ∧ adj_pair_zero t rot s) := by
  refine ⟨eh_peca_eq_spec t, ?_⟩
  rw [eh_peca_eq_spec t, classify_corner_spec]
  rw [List.find?_isSome]
  constructor
  · rintro ⟨⟨rot, ty⟩, hmem, hc⟩
    have hmem' : rot ∈ ([0, 1, 2, 3] : List Nat) ∧ ty ∈ ([0, 1, 2, 3] : List Nat) := by
      simp only [corner_combos, List.mem_flatMap, List.mem_map] at hmem
      obtain ⟨a, ha, b, hb, hab⟩ := hmem
      have h1 : a = rot := congrArg Prod.fst hab
      have h2 : b = ty := congrArg Prod.snd hab
      exact ⟨h1 ▸ ha, h2 ▸ hb⟩
    have hrot : rot < 4 := (mem_list4 rot).mp hmem'.1
    have hty : ty < 4 := (mem_list4 ty).mp hmem'.2
    refine ⟨rot, hrot, ?_⟩
    interval_cases ty
    · exact ⟨3, by omega, (corner_cond_ty0 t rot).mp hc⟩
    · exact ⟨0, by omega, (corner_cond_ty1 t rot).mp hc⟩
    · exact ⟨2, by omega, (corner_cond_ty2 t rot).mp hc⟩
    · exact ⟨1, by omega, (corner_cond_ty3 t rot).mp hc⟩
  · rintro ⟨rot, hrot, s, hs, hp⟩
    have hmem : ∀ ty, ty < 4 → (rot, ty) ∈ corner_combos := by
      intro ty hty
      simp only [corner_combos, List.mem_flatMap, List.mem_map]
      exact ⟨rot, (mem_list4 rot).mpr hrot, ⟨ty, (mem_list4 ty).mpr hty, rfl⟩⟩
    interval_cases s
    · exact ⟨(rot, 1), hmem 1 (by omega), (corner_cond_ty1 t rot).mpr hp⟩
    · exact ⟨(rot, 3), hmem 3 (by omega), (corner_cond_ty3 t rot).mpr hp⟩
    · exact ⟨(rot, 2), hmem 2 (by omega), (corner_cond_ty2 t rot).mpr hp⟩
    · exact ⟨(rot, 0), hmem 0 (by omega), (corner_cond_ty0 t rot).mpr hp⟩

theorem classify_corner_correct_witness :
    eh_peca_de_quina ⟨[0, 0, 1, 1], 0, 0, false⟩ =
      classify_corner_spec ⟨[0, 0, 1, 1], 0, 0, false⟩ ∧
      eh_peca_de_quina ⟨[0, 0, 1, 1], 0, 0, false⟩ = some (0, 1) :=
  ⟨(classify_corner_correct ⟨[0, 0, 1, 1], 0, 0, false⟩).1, by decide⟩

/-! ## Winner selection (claim C4) -/

theorem foldr_min_le_init (l : List Nat) (init : Nat) : l.foldr min init ≤ init := by
  induction l with
  | nil => exact Nat.le_refl init
  | cons hd tl ih => exact Nat.le_trans (Nat.min_le_right hd (tl.foldr min init)) ih

theorem foldr_min_le_mem (l : List Nat) (init a : Nat) (h : a ∈ l) :
    l.foldr min init ≤ a := by
  induction l with
  | nil => simp at h
  | cons hd tl ih =>
    rcases List.mem_cons.mp h with h | h
    · rw [h]
      exact Nat.min_le_left _ _
    · exact Nat.le_trans (Nat.min_le_right hd (tl.foldr min init)) (ih h)

theorem foldr_min_cases (l : List Nat) (init : Nat) :
    l.foldr min init = init ∨ l.foldr min init ∈ l := by
  induction l with
  | nil => exact Or.inl rfl
  | cons hd tl ih =>
    rw [List.foldr_cons]
    rcases Nat.le_total hd (tl.foldr min init) with h | h
    · rw [Nat.min_eq_left h]
      exact Or.inr (List.mem_cons_self hd tl)
    · rw [Nat.min_eq_right h]
      rcases ih with h2 | h2
      · exact Or.inl h2
      · exact Or.inr (List.mem_cons_of_mem hd h2)

theorem winner_rank_le (flags : List Bool) (r : Nat) (h : r < flags.length)
    (hf : flags.getD r false = true) : winner_rank flags ≤ r := by
  apply foldr_min_le_mem
  rw [List.mem_map]
  refine ⟨r, List.mem_range.mpr h, ?_⟩
  unfold has_solution_contrib
  rw [hf]
  simp

theorem winner_rank_flag (flags : List Bool) (r : Nat) (h : r < flags.length)
    (hf : flags.getD r false = true) :
    winner_rank flags < flags.length ∧ flags.getD (winner_rank flags) false = true := by
  have hle : winner_rank flags ≤ r := winner_rank_le flags r h hf
  have hw : winner_rank flags = ((List.range flags.length).map (fun q =>
      has_solution_contrib (flags.getD q false) q flags.length)).foldr min flags.length := rfl
  rcases foldr_min_cases ((List.range flags.length).map (fun q =>
      has_solution_contrib (flags.getD q false) q flags.length)) flags.length with hc | hc
  · rw [← hw] at hc
    omega
  · rw [← hw] at hc
    rw [List.mem_map] at hc
    obtain ⟨q, hq, hcq⟩ := hc
    have hql : q < flags.length := List.mem_range.mp hq
    unfold has_solution_contrib at hcq
    by_cases hfq : flags.getD q false = true
    · rw [if_pos hfq] at hcq
      rw [← hcq]
      exact ⟨hql, hfq⟩
    · rw [if_neg hfq] at hcq
      omega

/-- Claim C4: when at least one worker's search returns success, the
reported winner is the minimum, over active workers, of (own rank if
that worker personally produced a complete board, else the sentinel
`effective_processes`, strictly larger than any active rank): the first
conjunct restates `winner_rank` as exactly that minimum reduction of
`has_solution_contrib` values.  Consequently, for two workers `r1 < r2`
that both independently completed a board, the winner is at most `r1`,
the winner itself holds a completed board, the winner's print guard
fires and `r2`'s does not — so the printed solution is the lower-ranked
worker's.  The reduction is a pure function of the final flags, so the
outcome is independent of completion order. -/
theorem winner_selection (flags : List Bool) (r1 r2 : Nat)
    (h1 : r1 < flags.length) (h2 : r2 < flags.length) (hlt : r1 < r2)
    (hf1 : flags.getD r1 false = true) (hf2 : flags.getD r2 false = true) :
    winner_rank flags =
      ((List.range flags.length).map (fun r =>
        has_solution_contrib (flags.getD r false) r flags.length)).foldr min flags.length ∧
    winner_rank flags ≤ r1 ∧
    flags.getD (winner_rank flags) false = true ∧
    prints_solution flags (winner_rank flags) = true ∧
    prints_solution flags r2 = false := by
  have hle : winner_rank flags ≤ r1 := winner_rank_le flags r1 h1 hf1
  have hwf := winner_rank_flag flags r1 h1 hf1
  refine ⟨rfl, hle, hwf.2, ?_, ?_⟩
  · unfold prints_solution
    rw [hwf.2]
    simp
  · unfold prints_solution
    have : (r2 == winner_rank flags) = false := by
      rw [beq_eq_false_iff_ne]
      omega
    rw [this]
    simp

theorem winner_selection_witness :
    (0 : Nat) < 3 ∧ (2 : Nat) < 3 ∧ (0 : Nat) < 2 ∧
      ([true, false, true].getD 0 false = true) ∧
      ([true, false, true].getD 2 false = true) ∧
      (winner_rank [true, false, true] ≤ 0 ∧
        [true, false, true].getD (winner_rank [true, false, true]) false = true ∧
        prints_solution [true, false, true] (winner_rank [true, false, true]) = true ∧
        prints_solution [true, false, true] 2 = false) := by
  refine ⟨by decide, by decide, by decide, by decide, by decide, ?_⟩
  have h := winner_selection [true, false, true] 0 2 (by decide) (by decide) (by decide)
    (by decide) (by decide)
  exact ⟨h.2.1, h.2.2.1, h.2.2.2.1, h.2.2.2.2⟩

/-! ## Structural invariants of the search engine -/

theorem length_tiles_setUsed (g : Game) (i : Nat) (b : Bool) :
    (setUsed g i b).tiles.length = g.tiles.length := by
  simp [setUsed]

theorem length_tiles_setRotation (g : Game) (i r : Nat) :
    (setRotation g i r).tiles.length = g.tiles.length := by
  simp [setRotation]

theorem tile_fields_setUsed (g : Game) (i : Nat) (b : Bool) (j : Nat) :
    (tileAt (setUsed g i b) j).colors = (tileAt g j).colors ∧
    (tileAt (setUsed g i b) j).rotation = (tileAt g j).rotation ∧
    (tileAt (setUsed g i b) j).id = (tileAt g j).id := by
  by_cases hij : i = j
  · subst hij
    by_cases hl : i < g.tiles.length
    · rw [tileAt_setUsed_self g i b hl]
      exact ⟨rfl, rfl, rfl⟩
    · rw [setUsed_oob g i b (by omega)]
      exact ⟨rfl, rfl, rfl⟩
  · rw [tileAt_setUsed_ne g i j b hij]
    exact ⟨rfl, rfl, rfl⟩

theorem tile_fields_setRotation (g : Game) (i r : Nat) (j : Nat) :
    (tileAt (setRotation g i r) j).colors = (tileAt g j).colors ∧
    (tileAt (setRotation g i r) j).used = (tileAt g j).used ∧
    (tileAt (setRotation g i r) j).id = (tileAt g j).id := by
  by_cases hij : i = j
  · subst hij
    by_cases hl : i < g.tiles.length
    · rw [tileAt_setRotation_self g i r hl]
      exact ⟨rfl, rfl, rfl⟩
    · rw [setRotation_oob g i r (by omega)]
      exact ⟨rfl, rfl, rfl⟩
  · rw [tileAt_setRotation_ne g i j r hij]
    exact ⟨rfl, rfl, rfl⟩

/-- Structure preserved by a search step regardless of outcome: board
dimensions, tile count, tile arena length, and every tile's colors and
id (the search mutates only rotations, used flags and the board). -/
def game_ok (f : SearchFn) : Prop := ∀ g w x y,
  (f g w x y).2.1.size = g.size ∧
  (f g w x y).2.1.tile_count = g.tile_count ∧
  (f g w x y).2.1.tiles.length = g.tiles.length ∧
  (∀ j, (tileAt (f g w x y).2.1 j).colors = (tileAt g j).colors ∧
        (tileAt (f g w x y).2.1 j).id = (tileAt g j).id)

theorem game_ok_trans_step (g1 g2 g3 : Game)
    (h12 : g2.size = g1.size ∧ g2.tile_count = g1.tile_count ∧
      g2.tiles.length = g1.tiles.length ∧
      (∀ j, (tileAt g2 j).colors = (tileAt g1 j).colors ∧ (tileAt g2 j).id = (tileAt g1 j).id))
    (h23 : g3.size = g2.size ∧ g3.tile_count = g2.tile_count ∧
      g3.tiles.length = g2.tiles.length ∧
      (∀ j, (tileAt g3 j).colors = (tileAt g2 j).colors ∧ (tileAt g3 j).id = (tileAt g2 j).id)) :
    g3.size = g1.size ∧ g3.tile_count = g1.tile_count ∧
      g3.tiles.length = g1.tiles.length ∧
      (∀ j, (tileAt g3 j).colors = (tileAt g1 j).colors ∧
        (tileAt g3 j).id = (tileAt g1 j).id) := by
  refine ⟨h23.1.trans h12.1, h23.2.1.trans h12.2.1, h23.2.2.1.trans h12.2.2.1, fun j => ?_⟩
  exact ⟨(h23.2.2.2 j).1.trans (h12.2.2.2 j).1, (h23.2.2.2 j).2.trans (h12.2.2.2 j).2⟩

theorem game_ok_setUsed (g : Game) (i : Nat) (b : Bool) :
    (setUsed g i b).size = g.size ∧ (setUsed g i b).tile_count = g.tile_count ∧
      (setUsed g i b).tiles.length = g.tiles.length ∧
      (∀ j, (tileAt (setUsed g i b) j).colors = (tileAt g j).colors ∧
        (tileAt (setUsed g i b) j).id = (tileAt g j).id) :=
  ⟨rfl, rfl, length_tiles_setUsed g i b,
    fun j => ⟨(tile_fields_setUsed g i b j).1, (tile_fields_setUsed g i b j).2.2⟩⟩

theorem game_ok_setRotation (g : Game) (i r : Nat) :
    (setRotation g i r).size = g.size ∧ (setRotation g i r).tile_count = g.tile_count ∧
      (setRotation g i r).tiles.length = g.tiles.length ∧
      (∀ j, (tileAt (setRotation g i r) j).colors = (tileAt g j).colors ∧
        (tileAt (setRotation g i r) j).id = (tileAt g j).id) :=
  ⟨rfl, rfl, length_tiles_setRotation g i r,
    fun j => ⟨(tile_fields_setRotation g i r j).1, (tile_fields_setRotation g i r j).2.2⟩⟩

theorem game_ok_boardSet (g : Game) (x y : Nat) (v : Option Nat) :
    (boardSet g x y v).size = g.size ∧ (boardSet g x y v).tile_count = g.tile_count ∧
      (boardSet g x y v).tiles.length = g.tiles.length ∧
      (∀ j, (tileAt (boardSet g x y v) j).colors = (tileAt g j).colors ∧
        (tileAt (boardSet g x y v) j).id = (tileAt g j).id) :=
  ⟨rfl, rfl, rfl, fun _ => ⟨rfl, rfl⟩⟩

theorem descendStep_game_ok (descend : SearchFn) (hd : game_ok descend)
    (g : Game) (w : WState) (x y : Nat) :
    (descendStep descend g w x y).2.1.size = g.size ∧
    (descendStep descend g w x y).2.1.tile_count = g.tile_count ∧
    (descendStep descend g w x y).2.1.tiles.length = g.tiles.length ∧
    (∀ j, (tileAt (descendStep descend g w x y).2.1 j).colors = (tileAt g j).colors ∧
      (tileAt (descendStep descend g w x y).2.1 j).id = (tileAt g j).id) := by
  unfold descendStep
  by_cases hny : (if x < g.size - 1 then y else if y < g.size - 1 then y + 1 else g.size)
      = g.size
  · simp only [hny, beq_self_eq_true, if_true]
    simp
  · simp only [beq_eq_false_iff_ne.mpr hny, Bool.false_eq_true, if_false]
    cases hr : (descend g w (if x < g.size - 1 then x + 1
        else if y < g.size - 1 then 0 else g.size)
      (if x < g.size - 1 then y else if y < g.size - 1 then y + 1 else g.size)).1 <;>
      simp only [hr, if_true, if_false, Bool.false_eq_true] <;> exact hd g w _ _

theorem tryRots_game_ok (descend : SearchFn) (hd : game_ok descend) (x y i : Nat) :
    ∀ (rs : List Nat) (g : Game) (w : WState),
      (tryRots descend x y i g w rs).2.1.size = g.size ∧
      (tryRots descend x y i g w rs).2.1.tile_count = g.tile_count ∧
      (tryRots descend x y i g w rs).2.1.tiles.length = g.tiles.length ∧
      (∀ j, (tileAt (tryRots descend x y i g w rs).2.1 j).colors = (tileAt g j).colors ∧
        (tileAt (tryRots descend x y i g w rs).2.1 j).id = (tileAt g j).id) := by
  intro rs
  induction rs with
  | nil =>
    intro g w
    exact ⟨rfl, rfl, rfl, fun _ => ⟨rfl, rfl⟩⟩
  | cons r rs ih =>
    intro g w
    simp only [tryRots]
    cases hv : valid_move (setRotation g i r) x y (tileAt (setRotation g i r) i) with
    | false =>
      simp only [Bool.false_eq_true, if_false]
      exact game_ok_trans_step g (setRotation g i r) _ (game_ok_setRotation g i r)
        (ih (setRotation g i r) w)
    | true =>
      simp only [if_true]
      have hstep := descendStep_game_ok descend hd
        (boardSet (setRotation g i r) x y (some i)) w x y
      have hbase := game_ok_trans_step g (setRotation g i r) _
        (game_ok_setRotation g i r) (game_ok_boardSet (setRotation g i r) x y (some i))
      cases hr : (descendStep descend (boardSet (setRotation g i r) x y (some i)) w x y).1 with
      | true =>
        simp only [if_true]
        exact game_ok_trans_step g _ _ hbase hstep
      | false =>
        simp only [Bool.false_eq_true, if_false]
        have hmid := game_ok_trans_step g _ _ hbase hstep
        have hmid2 := game_ok_trans_step g _ _ hmid
          (game_ok_boardSet
            (descendStep descend (boardSet (setRotation g i r) x y (some i)) w x y).2.1 x y none)
        exact game_ok_trans_step g _ _ hmid2 (ih _ _)

theorem tryTiles_game_ok (descend : SearchFn) (hd : game_ok descend) (x y : Nat) :
    ∀ (is : List Nat) (g : Game) (w : WState),
      (tryTiles descend x y g w is).2.1.size = g.size ∧
      (tryTiles descend x y g w is).2.1.tile_count = g.tile_count ∧
      (tryTiles descend x y g w is).2.1.tiles.length = g.tiles.length ∧
      (∀ j, (tileAt (tryTiles descend x y g w is).2.1 j).colors = (tileAt g j).colors ∧
        (tileAt (tryTiles descend x y g w is).2.1 j).id = (tileAt g j).id) := by
  intro is
  induction is with
  | nil =>
    intro g w
    exact ⟨rfl, rfl, rfl, fun _ => ⟨rfl, rfl⟩⟩
  | cons i is ih =>
    intro g w
    simp only [tryTiles]
    cases hu : usedOf g i with
    | true =>
      simp only [if_true]
      exact ih g w
    | false =>
      simp only [Bool.false_eq_true, if_false]
      have hrots := tryRots_game_ok descend hd x y i [0, 1, 2, 3] (setUsed g i true) w
      have hbase := game_ok_trans_step g (setUsed g i true) _
        (game_ok_setUsed g i true) hrots
      cases hr : (tryRots descend x y i (setUsed g i true) w [0, 1, 2, 3]).1 with
      | true =>
        simp only [if_true]
        exact hbase
      | false =>
        simp only [Bool.false_eq_true, if_false]
        have hmid := game_ok_trans_step g _ _ hbase
          (game_ok_setUsed (tryRots descend x y i (setUsed g i true) w [0, 1, 2, 3]).2.1 i false)
        exact game_ok_trans_step g _ _ hmid (ih _ _)

theorem play_game_ok : ∀ fuel : Nat, game_ok (play fuel) := by
  intro fuel
  induction fuel with
  | zero =>
    intro g w x y
    exact ⟨rfl, rfl, rfl, fun _ => ⟨rfl, rfl⟩⟩
  | succ fuel ih =>
    intro g w x y
    simp only [play]
    cases hstop : w.global_stop with
    | true =>
      simp only [if_true]
      simp
    | false =>
      simp only [Bool.false_eq_true, if_false]
      cases hpr : ((w.check_counter + 1) % 1000 == 0 && !List.isEmpty w.inbox) with
      | true =>
        simp only [if_true]
        simp
      | false =>
        simp only [Bool.false_eq_true, if_false]
        cases hgs : w.global_solution_found with
        | true =>
          simp only [if_true]
          simp
        | false =>
          simp only [Bool.false_eq_true, if_false]
          exact tryTiles_game_ok (play fuel) ih x y (List.range g.tile_count) g _

/-! ## Worker-state invariants: rank and message log (claim C5) -/

theorem peerMsgs_congr (w w' : WState) (h1 : w'.rank = w.rank) (h2 : w'.nprocs = w.nprocs) :
    peerMsgs w' = peerMsgs w := by
  unfold peerMsgs
  rw [h1, h2]

/-- Worker-state behaviour of a search step: rank and communicator size
never change; a failing step sends nothing; a succeeding step appends
`k ≥ 1` full peer-broadcast rounds to the send log — one round per level
of the successful recursion path. -/
def wstate_ok (f : SearchFn) : Prop := ∀ g w x y,
  (f g w x y).2.2.rank = w.rank ∧
  (f g w x y).2.2.nprocs = w.nprocs ∧
  ((f g w x y).1 = false → (f g w x y).2.2.sent = w.sent) ∧
  ((f g w x y).1 = true →
    ∃ k, 1 ≤ k ∧ (f g w x y).2.2.sent = w.sent ++ (List.replicate k (peerMsgs w)).flatten)

theorem descendStep_wstate (descend : SearchFn) (hd : wstate_ok descend)
    (g : Game) (w : WState) (x y : Nat) :
    (descendStep descend g w x y).2.2.rank = w.rank ∧
    (descendStep descend g w x y).2.2.nprocs = w.nprocs ∧
    ((descendStep descend g w x y).1 = false →
      (descendStep descend g w x y).2.2.sent = w.sent) ∧
    ((descendStep descend g w x y).1 = true →
      ∃ k, 1 ≤ k ∧ (descendStep descend g w x y).2.2.sent =
        w.sent ++ (List.replicate k (peerMsgs w)).flatten) := by
  unfold descendStep
  by_cases hny : (if x < g.size - 1 then y else if y < g.size - 1 then y + 1 else g.size)
      = g.size
  · simp only [hny, beq_self_eq_true, if_true]
    refine ⟨rfl, rfl, by simp, fun _ => ⟨1, Nat.le_refl 1, ?_⟩⟩
    show w.sent ++ peerMsgs w = _
    simp
  · simp only [beq_eq_false_iff_ne.mpr hny, Bool.false_eq_true, if_false]
    have hsub := hd g w (if x < g.size - 1 then x + 1 else if y < g.size - 1 then 0 else g.size)
      (if x < g.size - 1 then y else if y < g.size - 1 then y + 1 else g.size)
    cases hr : (descend g w (if x < g.size - 1 then x + 1
        else if y < g.size - 1 then 0 else g.size)
      (if x < g.size - 1 then y else if y < g.size - 1 then y + 1 else g.size)).1 with
    | false =>
      simp only [Bool.false_eq_true, if_false]
      exact ⟨hsub.1, hsub.2.1, fun _ => hsub.2.2.1 hr, by simp⟩
    | true =>
      simp only [if_true]
      obtain ⟨k, hk, hks⟩ := hsub.2.2.2 hr
      refine ⟨hsub.1, hsub.2.1, by simp, fun _ => ⟨k + 1, by omega, ?_⟩⟩
      show (stopAndBroadcast _).sent = _
      unfold stopAndBroadcast
      show _ ++ peerMsgs _ = _
      rw [hks, peerMsgs_congr w _ hsub.1 hsub.2.1, List.replicate_succ',
        List.flatten_append, List.append_assoc]
      simp

theorem tryRots_wstate (descend : SearchFn) (hd : wstate_ok descend) (x y i : Nat) :
    ∀ (rs : List Nat) (g : Game) (w : WState),
      (tryRots descend x y i g w rs).2.2.rank = w.rank ∧
      (tryRots descend x y i g w rs).2.2.nprocs = w.nprocs ∧
      ((tryRots descend x y i g w rs).1 = false →
        (tryRots descend x y i g w rs).2.2.sent = w.sent) ∧
      ((tryRots descend x y i g w rs).1 = true →
        ∃ k, 1 ≤ k ∧ (tryRots descend x y i g w rs).2.2.sent =
          w.sent ++ (List.replicate k (peerMsgs w)).flatten) := by
  intro rs
  induction rs with
  | nil =>
    intro g w
    exact ⟨rfl, rfl, fun _ => rfl, by simp [tryRots]⟩
  | cons r rs ih =>
    intro g w
    simp only [tryRots]
    cases hv : valid_move (setRotation g i r) x y (tileAt (setRotation g i r) i) with
    | false =>
      simp only [Bool.false_eq_true, if_false]
      exact ih (setRotation g i r) w
    | true =>
      simp only [if_true]
      have hstep := descendStep_wstate descend hd
        (boardSet (setRotation g i r) x y (some i)) w x y
      cases hr : (descendStep descend (boardSet (setRotation g i r) x y (some i)) w x y).1 with
      | true =>
        simp only [if_true]
        exact ⟨hstep.1, hstep.2.1, by simp [hr], fun _ => hstep.2.2.2 hr⟩
      | false =>
        simp only [Bool.false_eq_true, if_false]
        have hmid := hstep.2.2.1 hr
        have hrec := ih
          (boardSet (descendStep descend (boardSet (setRotation g i r) x y (some i)) w x y).2.1
            x y none)
          (descendStep descend (boardSet (setRotation g i r) x y (some i)) w x y).2.2
        refine ⟨hrec.1.trans hstep.1, hrec.2.1.trans hstep.2.1, ?_, ?_⟩
        · intro hfin
          rw [hrec.2.2.1 hfin, hmid]
        · intro hfin
          obtain ⟨k, hk, hks⟩ := hrec.2.2.2 hfin
          refine ⟨k, hk, ?_⟩
          rw [hks, hmid, peerMsgs_congr w _ hstep.1 hstep.2.1]

theorem tryTiles_wstate (descend : SearchFn) (hd : wstate_ok descend) (x y : Nat) :
    ∀ (is : List Nat) (g : Game) (w : WState),
      (tryTiles descend x y g w is).2.2.rank = w.rank ∧
      (tryTiles descend x y g w is).2.2.nprocs = w.nprocs ∧
      ((tryTiles descend x y g w is).1 = false →
        (tryTiles descend x y g w is).2.2.sent = w.sent) ∧
      ((tryTiles descend x y g w is).1 = true →
        ∃ k, 1 ≤ k ∧ (tryTiles descend x y g w is).2.2.sent =
          w.sent ++ (List.replicate k (peerMsgs w)).flatten) := by
  intro is
  induction is with
  | nil =>
    intro g w
    exact ⟨rfl, rfl, fun _ => rfl, by simp [tryTiles]⟩
  | cons i is ih =>
    intro g w
    simp only [tryTiles]
    cases hu : usedOf g i with
    | true =>
      simp only [if_true]
      exact ih g w
    | false =>
      simp only [Bool.false_eq_true, if_false]
      have hrots := tryRots_wstate descend hd x y i [0, 1, 2, 3] (setUsed g i true) w
      cases hr : (tryRots descend x y i (setUsed g i true) w [0, 1, 2, 3]).1 with
      | true =>
        simp only [if_true]
        exact ⟨hrots.1, hrots.2.1, by simp [hr], fun _ => hrots.2.2.2 hr⟩
      | false =>
        simp only [Bool.false_eq_true, if_false]
        have hmid := hrots.2.2.1 hr
        have hrec := ih
          (setUsed (tryRots descend x y i (setUsed g i true) w [0, 1, 2, 3]).2.1 i false)
          (tryRots descend x y i (setUsed g i true) w [0, 1, 2, 3]).2.2
        refine ⟨hrec.1.trans hrots.1, hrec.2.1.trans hrots.2.1, ?_, ?_⟩
        · intro hfin
          rw [hrec.2.2.1 hfin, hmid]
        · intro hfin
          obtain ⟨k, hk, hks⟩ := hrec.2.2.2 hfin
          refine ⟨k, hk, ?_⟩
          rw [hks, hmid, peerMsgs_congr w _ hrots.1 hrots.2.1]

theorem play_wstate : ∀ fuel : Nat, wstate_ok (play fuel) := by
  intro fuel
  induction fuel with
  | zero =>
    intro g w x y
    exact ⟨rfl, rfl, fun _ => rfl, by simp [play]⟩
  | succ fuel ih =>
    intro g w x y
    simp only [play]
    cases hstop : w.global_stop with
    | true =>
      simp only [if_true]
      simp
    | false =>
      simp only [Bool.false_eq_true, if_false]
      cases hpr : ((w.check_counter + 1) % 1000 == 0 && !List.isEmpty w.inbox) with
      | true =>
        simp only [if_true]
        simp
      | false =>
        simp only [Bool.false_eq_true, if_false]
        cases hgs : w.global_solution_found with
        | true =>
          simp only [if_true]
          simp
        | false =>
          simp only [Bool.false_eq_true, if_false]
          exact tryTiles_wstate (play fuel) ih x y (List.range g.tile_count) g _

/-! ## Backtracking restoration (claim C9) -/

theorem boardGet_boardSet_none_self (g : Game) (x y : Nat) :
    boardGet (boardSet g x y none) x y = none := by
  unfold boardGet boardSet
  by_cases hx : x < g.board.length
  · show ((g.board.set x _).getD x []).getD y none = none
    rw [listGetD_set_self g.board x hx]
    by_cases hy : y < (g.board.getD x []).length
    · rw [listGetD_set_self _ y hy]
    · rw [listSet_oob _ y (by omega)]
      exact List.getD_eq_default _ _ (by omega)
  · show ((g.board.set x _).getD x []).getD y none = none
    rw [listSet_oob g.board x (by omega)]
    rw [List.getD_eq_default _ _ (by omega : g.board.length ≤ x)]
    rfl

theorem or_none_trans (g1 g2 g3 : Game)
    (h12 : ∀ a b, boardGet g2 a b = boardGet g1 a b ∨ boardGet g2 a b = none)
    (h23 : ∀ a b, boardGet g3 a b = boardGet g2 a b ∨ boardGet g3 a b = none) :
    ∀ a b, boardGet g3 a b = boardGet g1 a b ∨ boardGet g3 a b = none := by
  intro a b
  rcases h23 a b with h | h
  · rcases h12 a b with h2 | h2
    · exact Or.inl (h.trans h2)
    · exact Or.inr (h.trans h2)
  · exact Or.inr h

/-- Unwinding behaviour: whenever a search step returns failure, every
used flag is restored to its entry value, and every board cell either
still holds its entry value or has been cleared to empty. -/
def unwind_ok (f : SearchFn) : Prop := ∀ g w x y, (f g w x y).1 = false →
  (∀ j, usedOf (f g w x y).2.1 j = usedOf g j) ∧
  (∀ a b, boardGet (f g w x y).2.1 a b = boardGet g a b ∨
    boardGet (f g w x y).2.1 a b = none)

theorem descendStep_unwind (descend : SearchFn) (hd : unwind_ok descend)
    (g : Game) (w : WState) (x y : Nat) :
    (descendStep descend g w x y).1 = false →
      (∀ j, usedOf (descendStep descend g w x y).2.1 j = usedOf g j) ∧
      (∀ a b, boardGet (descendStep descend g w x y).2.1 a b = boardGet g a b ∨
        boardGet (descendStep descend g w x y).2.1 a b = none) := by
  unfold descendStep
  by_cases hny : (if x < g.size - 1 then y else if y < g.size - 1 then y + 1 else g.size)
      = g.size
  · simp only [hny, beq_self_eq_true, if_true]
    intro hfin
    exact absurd hfin (by simp)
  · simp only [beq_eq_false_iff_ne.mpr hny, Bool.false_eq_true, if_false]
    cases hr : (descend g w (if x < g.size - 1 then x + 1
        else if y < g.size - 1 then 0 else g.size)
      (if x < g.size - 1 then y else if y < g.size - 1 then y + 1 else g.size)).1 with
    | true =>
      simp only [if_true]
      intro hfin
      exact absurd hfin (by simp)
    | false =>
      simp only [Bool.false_eq_true, if_false]
      intro _
      exact hd g w _ _ hr

theorem tryRots_unwind (descend : SearchFn) (hd : unwind_ok descend) (x y i : Nat) :
    ∀ (rs : List Nat) (g : Game) (w : WState),
      (tryRots descend x y i g w rs).1 = false →
        (∀ j, usedOf (tryRots descend x y i g w rs).2.1 j = usedOf g j) ∧
        (∀ a b, boardGet (tryRots descend x y i g w rs).2.1 a b = boardGet g a b ∨
          boardGet (tryRots descend x y i g w rs).2.1 a b = none) := by
  intro rs
  induction rs with
  | nil =>
    intro g w _
    exact ⟨fun _ => rfl, fun _ _ => Or.inl rfl⟩
  | cons r rs ih =>
    intro g w
    simp only [tryRots]
    cases hv : valid_move (setRotation g i r) x y (tileAt (setRotation g i r) i) with
    | false =>
      simp only [Bool.false_eq_true, if_false]
      intro hfin
      obtain ⟨hu, hb⟩ := ih (setRotation g i r) w hfin
      refine ⟨fun j => (hu j).trans (usedOf_setRotation g i r j), fun a b => hb a b⟩
    | true =>
      simp only [if_true]
      cases hr : (descendStep descend (boardSet (setRotation g i r) x y (some i)) w x y).1 with
      | true =>
        simp only [if_true]
        intro hfin
        exact absurd hfin (by simp [hr])
      | false =>
        simp only [Bool.false_eq_true, if_false]
        intro hfin
        obtain ⟨husM, hbM⟩ := descendStep_unwind descend hd
          (boardSet (setRotation g i r) x y (some i)) w x y hr
        obtain ⟨huI, hbI⟩ := ih
          (boardSet (descendStep descend (boardSet (setRotation g i r) x y (some i)) w x y).2.1
            x y none)
          (descendStep descend (boardSet (setRotation g i r) x y (some i)) w x y).2.2 hfin
        constructor
        · intro j
          refine (huI j).trans ?_
          show usedOf (descendStep descend (boardSet (setRotation g i r) x y (some i)) w x y).2.1
              j = usedOf g j
          refine (husM j).trans ?_
          show usedOf (setRotation g i r) j = usedOf g j
          exact usedOf_setRotation g i r j
        · refine or_none_trans g _ _ ?_ hbI
          intro a b
          by_cases hab : a = x ∧ b = y
          · obtain ⟨ha, hb2⟩ := hab
            subst ha
            subst hb2
            exact Or.inr (boardGet_boardSet_none_self _ a b)
          · rw [boardGet_boardSet_ne _ x y a b none hab]
            rcases hbM a b with h | h
            · rw [h, boardGet_boardSet_ne _ x y a b (some i) hab]
              exact Or.inl rfl
            · exact Or.inr h


theorem tryTiles_unwind (descend : SearchFn) (hd : unwind_ok descend)
    (hg : game_ok descend) (x y : Nat) :
    ∀ (is : List Nat) (g : Game) (w : WState),
      (tryTiles descend x y g w is).1 = false →
        (∀ j, usedOf (tryTiles descend x y g w is).2.1 j = usedOf g j) ∧
        (∀ a b, boardGet (tryTiles descend x y g w is).2.1 a b = boardGet g a b ∨
          boardGet (tryTiles descend x y g w is).2.1 a b = none) := by
  intro is
  induction is with
  | nil =>
    intro g w _
    exact ⟨fun _ => rfl, fun _ _ => Or.inl rfl⟩
  | cons i is ih =>
    intro g w
    simp only [tryTiles]
    cases hu : usedOf g i with
    | true =>
      simp only [if_true]
      exact ih g w
    | false =>
      simp only [Bool.false_eq_true, if_false]
      cases hr : (tryRots descend x y i (setUsed g i true) w [0, 1, 2, 3]).1 with
      | true =>
        simp only [if_true]
        intro hfin
        exact absurd hfin (by simp [hr])
      | false =>
        simp only [Bool.false_eq_true, if_false]
        intro hfin
        obtain ⟨husM, hbM⟩ := tryRots_unwind descend hd x y i [0, 1, 2, 3]
          (setUsed g i true) w hr
        obtain ⟨huI, hbI⟩ := ih
          (setUsed (tryRots descend x y i (setUsed g i true) w [0, 1, 2, 3]).2.1 i false)
          (tryRots descend x y i (setUsed g i true) w [0, 1, 2, 3]).2.2 hfin
        have hlen : (tryRots descend x y i (setUsed g i true) w [0, 1, 2, 3]).2.1.tiles.length
            = g.tiles.length := by
          refine (tryRots_game_ok descend hg x y i [0, 1, 2, 3]
            (setUsed g i true) w).2.2.1.trans ?_
          exact length_tiles_setUsed g i true
        constructor
        · intro j
          refine (huI j).trans ?_
          by_cases hij : i = j
          · subst hij
            by_cases hl : i < g.tiles.length
            · rw [usedOf_setUsed_self _ i false (by omega), hu]
            · rw [setUsed_oob _ i false (by omega), (husM i).trans
                (by rw [setUsed_oob g i true (by omega)])]
          · rw [usedOf_setUsed_ne _ i j false hij, (husM j).trans
              (usedOf_setUsed_ne g i j true hij)]
        · refine or_none_trans g _ _ ?_ hbI
          intro a b
          show boardGet (tryRots descend x y i (setUsed g i true) w [0, 1, 2, 3]).2.1 a b
              = boardGet g a b ∨ _
          rcases hbM a b with h | h
          · exact Or.inl h
          · exact Or.inr h

theorem play_unwind : ∀ fuel : Nat, unwind_ok (play fuel) := by
  intro fuel
  induction fuel with
  | zero =>
    intro g w x y _
    exact ⟨fun _ => rfl, fun _ _ => Or.inl rfl⟩
  | succ fuel ih =>
    intro g w x y
    simp only [play]
    cases hstop : w.global_stop with
    | true =>
      simp only [if_true]
      intro _
      simp
    | false =>
      simp only [Bool.false_eq_true, if_false]
      cases hpr : ((w.check_counter + 1) % 1000 == 0 && !List.isEmpty w.inbox) with
      | true =>
        simp only [if_true]
        intro _
        simp
      | false =>
        simp only [Bool.false_eq_true, if_false]
        cases hgs : w.global_solution_found with
        | true =>
          simp only [if_true]
          intro _
          simp
        | false =>
          simp only [Bool.false_eq_true, if_false]
          exact tryTiles_unwind (play fuel) ih (play_game_ok fuel) x y
            (List.range g.tile_count) g _

/-- Claim C9 (counterexample): a search call at a cell can return failure
with a board cell changed.  `gCE` is the state worker 0 of `P1` reaches
when the raster advance first targets the pre-seeded corner cell (1, 0)
while it is occupied by the corner tile 0; the call at (1, 0) returns
failure with no stop signalled (flags still clear), yet cell (1, 0) has
been cleared to empty — the tried candidates overwrote the occupant and
the backtrack clears, rather than restores, the cell. -/
theorem failure_clears_preseeded_cell :
    (play 10 gCE (init_wstate 0 1) 1 0).1 = false ∧
      boardGet gCE 1 0 = some 0 ∧
      boardGet (play 10 gCE (init_wstate 0 1) 1 0).2.1 1 0 = none ∧
      (play 10 gCE (init_wstate 0 1) 1 0).2.2.global_stop = false ∧
      (play 10 gCE (init_wstate 0 1) 1 0).2.2.global_solution_found = false := by
  decide

/-- Claim C9 (amended): whenever a search call returns failure, every
tile's used flag holds its entry value (each tried tile is un-marked
before the next candidate, and exhaustion restores all flags), and every
board cell either holds its entry value or has been cleared to empty; a
cell that was empty on entry is exactly restored, but a cell occupied on
entry that the search reaches (a pre-seeded corner) may end cleared.
Tile colors and ids never change. -/
theorem failure_restores_used_and_empties (fuel : Nat) (g : Game) (w : WState) (x y : Nat)
    (hfail : (play fuel g w x y).1 = false) :
    (∀ j, usedOf (play fuel g w x y).2.1 j = usedOf g j) ∧
    (∀ a b, boardGet (play fuel g w x y).2.1 a b = boardGet g a b ∨
      boardGet (play fuel g w x y).2.1 a b = none) ∧
    (∀ j, (tileAt (play fuel g w x y).2.1 j).colors = (tileAt g j).colors ∧
      (tileAt (play fuel g w x y).2.1 j).id = (tileAt g j).id) := by
  obtain ⟨hu, hb⟩ := play_unwind fuel g w x y hfail
  exact ⟨hu, hb, (play_game_ok fuel g w x y).2.2.2⟩

theorem failure_restores_used_and_empties_witness :
    (play 10 gCE (init_wstate 0 1) 1 0).1 = false ∧
      ((∀ j, usedOf (play 10 gCE (init_wstate 0 1) 1 0).2.1 j = usedOf gCE j) ∧
        (∀ a b, boardGet (play 10 gCE (init_wstate 0 1) 1 0).2.1 a b = boardGet gCE a b ∨
          boardGet (play 10 gCE (init_wstate 0 1) 1 0).2.1 a b = none) ∧
        (∀ j, (tileAt (play 10 gCE (init_wstate 0 1) 1 0).2.1 j).colors
            = (tileAt gCE j).colors ∧
          (tileAt (play 10 gCE (init_wstate 0 1) 1 0).2.1 j).id = (tileAt gCE j).id)) :=
  ⟨by decide, failure_restores_used_and_empties 10 gCE (init_wstate 0 1) 1 0 (by decide)⟩

/-- Claim C5 (counterexample): a worker whose search completes the board
does not send exactly one stop notification to each other worker.  With
the all-border puzzle `P0` and two processes, worker 0 completes the
board; its send log holds three messages to the single peer (one per
level of the three-level successful recursion path), not one. -/
theorem success_broadcast_not_single :
    (worker_run (initialize_game P0) (separar_pecas_de_quina (initialize_game P0)) 0 2).1
        = true ∧
      (worker_run (initialize_game P0) (separar_pecas_de_quina (initialize_game P0)) 0 2).2.2.sent
        = [(1, 0), (1, 0), (1, 0)] := by
  decide

/-- Claim C5 (amended): a worker whose search completes the board sends,
at every level of the successful recursion path, one stop-notification
round — one message to each of the other workers (active or not, all
ranks ≠ own over the full communicator), each carrying its own rank as
payload — before its search returns success to its caller; the send log
thus grows by `k ≥ 1` whole rounds of `peerMsgs` (one per success-path
level), not by a single round. -/
theorem success_broadcast_per_level (fuel : Nat) (g : Game) (w : WState) (x y : Nat)
    (hsucc : (play fuel g w x y).1 = true) :
    ∃ k, 1 ≤ k ∧ (play fuel g w x y).2.2.sent =
      w.sent ++ (List.replicate k (peerMsgs w)).flatten :=
  (play_wstate fuel g w x y).2.2.2 hsucc

theorem success_broadcast_per_level_witness :
    (play 5 (seed_board (initialize_game P0) ⟨0, 0, 0⟩) (init_wstate 0 2) 1 0).1 = true ∧
      (∃ k, 1 ≤ k ∧
        (play 5 (seed_board (initialize_game P0) ⟨0, 0, 0⟩) (init_wstate 0 2) 1 0).2.2.sent =
          (init_wstate 0 2).sent ++
            (List.replicate k (peerMsgs (init_wstate 0 2))).flatten) :=
  ⟨by decide,
    success_broadcast_per_level 5 (seed_board (initialize_game P0) ⟨0, 0, 0⟩)
      (init_wstate 0 2) 1 0 (by decide)⟩

/-- Claim C2 (the code evaluated at the failing input): puzzle `P1` has
four admissible corners, all of type NE; the first discovered corner is
(tile 0, rotation 0, NE), and `assign1` is a complete valid tiling
extending that seed, so the claim's hypotheses hold with `W = C = 4`.
Yet no active worker's search succeeds and the run exits with status 1:
the raster advance walks through the pre-seeded corner cell, and
re-filling it consumes a fresh tile, so a non-top-left-seeded search
needs `size²` unused tiles but has only `size² − 1` and can never
complete the board. -/
theorem run_misses_solvable_ne_corner :
    num_corners P1 = 4 ∧
      (separar_pecas_de_quina (initialize_game P1)).getD 0 default =
        ⟨0, 0, 1⟩ ∧
      tiling_ok P1 ⟨0, 0, 1⟩ assign1 = true ∧
      effective_processes 4 (num_corners P1) = 4 ∧
      global_result P1 4 = false ∧
      run_exit P1 4 = 1 := by
  decide

/-- Claim C10 (the code evaluated at the failing input): with puzzle `P0`
(four corners) and five processes, rank 4 is inactive.  The ordered
`MPI_COMM_WORLD` collective call sites executed by active rank 0 and by
inactive rank 4 differ: rank 0 calls the data broadcasts and
`MPI_Comm_split` (label 5) on the world communicator, rank 4 never calls
them and proceeds straight to the final broadcast.  A collective over
`MPI_COMM_WORLD` must be called by every rank, so the calls mismatch and
the final outcome broadcast cannot complete — the outcome is not
propagated to every process as the claim requires. -/
theorem collective_call_mismatch :
    num_corners P0 = 4 ∧
      effective_processes 5 (num_corners P0) = 4 ∧
      world_collective_trace P0 5 0 = [0, 1, 2, 3, 4, 5, 6] ∧
      world_collective_trace P0 5 4 = [0, 6] ∧
      world_collective_trace P0 5 0 ≠ world_collective_trace P0 5 4 ∧
      (5 ∈ world_collective_trace P0 5 0) ∧ ¬(5 ∈ world_collective_trace P0 5 4) := by
  decide

/-! ## The target cell is never inspected (claim C6) -/

theorem nbrCheck_boardSet_ne (g : Game) (x y a b : Nat) (v : Option Nat)
    (f : Tile → Nat) (c : Nat) (h : ¬(a = x ∧ b = y)) :
    nbrCheck (boardSet g x y v) a b f c = nbrCheck g a b f c := by
  unfold nbrCheck
  rw [boardGet_boardSet_ne g x y a b v h]
  rfl

theorem valid_move_ignores_target (g : Game) (x y : Nat) (v : Option Nat) (t : Tile) :
    valid_move (boardSet g x y v) x y t = valid_move g x y t := by
  unfold valid_move
  have hsz : (boardSet g x y v).size = g.size := rfl
  rw [hsz]
  have h6 : nbrCheck (boardSet g x y v) (x + 1) y wColor (eColor t)
      = nbrCheck g (x + 1) y wColor (eColor t) :=
    nbrCheck_boardSet_ne g x y (x + 1) y v wColor (eColor t) (fun hh => by omega)
  have h8 : nbrCheck (boardSet g x y v) x (y + 1) nColor (sColor t)
      = nbrCheck g x (y + 1) nColor (sColor t) :=
    nbrCheck_boardSet_ne g x y x (y + 1) v nColor (sColor t) (fun hh => by omega)
  rw [h6, h8]
  by_cases hx0 : 0 < x
  · have h5 : nbrCheck (boardSet g x y v) (x - 1) y eColor (wColor t)
        = nbrCheck g (x - 1) y eColor (wColor t) :=
      nbrCheck_boardSet_ne g x y (x - 1) y v eColor (wColor t) (fun hh => by omega)
    rw [h5]
    by_cases hy0 : 0 < y
    · have h7 : nbrCheck (boardSet g x y v) x (y - 1) sColor (nColor t)
          = nbrCheck g x (y - 1) sColor (nColor t) :=
        nbrCheck_boardSet_ne g x y x (y - 1) v sColor (nColor t) (fun hh => by omega)
      rw [h7]
    · rw [decide_eq_false hy0]
      simp
  · rw [decide_eq_false hx0]
    by_cases hy0 : 0 < y
    · have h7 : nbrCheck (boardSet g x y v) x (y - 1) sColor (nColor t)
          = nbrCheck g x (y - 1) sColor (nColor t) :=
        nbrCheck_boardSet_ne g x y x (y - 1) v sColor (nColor t) (fun hh => by omega)
      rw [h7]
      simp
    · rw [decide_eq_false hy0]
      simp

theorem tryRots_target_indep (descend : SearchFn) (x y i : Nat) :
    ∀ (rs : List Nat) (g : Game) (w : WState) (v : Option Nat),
      (tryRots descend x y i (boardSet g x y v) w rs).1 = (tryRots descend x y i g w rs).1 ∧
      (tryRots descend x y i (boardSet g x y v) w rs).2.2 = (tryRots descend x y i g w rs).2.2 ∧
      ((tryRots descend x y i (boardSet g x y v) w rs).2.1
          = (tryRots descend x y i g w rs).2.1 ∨
        (tryRots descend x y i (boardSet g x y v) w rs).2.1
          = boardSet (tryRots descend x y i g w rs).2.1 x y v) := by
  intro rs
  induction rs with
  | nil =>
    intro g w v
    exact ⟨rfl, rfl, Or.inr rfl⟩
  | cons r rs ih =>
    intro g w v
    simp only [tryRots]
    have hset : setRotation (boardSet g x y v) i r = boardSet (setRotation g i r) x y v :=
      (boardSet_setRotation_comm g i r x y v).symm
    have htile : tileAt (setRotation (boardSet g x y v) i r) i
        = tileAt (setRotation g i r) i := by
      rw [hset]
      rfl
    have hcond : valid_move (setRotation (boardSet g x y v) i r) x y
          (tileAt (setRotation (boardSet g x y v) i r) i)
        = valid_move (setRotation g i r) x y (tileAt (setRotation g i r) i) := by
      rw [htile, hset]
      exact valid_move_ignores_target (setRotation g i r) x y v (tileAt (setRotation g i r) i)
    rw [hcond]
    cases hv : valid_move (setRotation g i r) x y (tileAt (setRotation g i r) i) with
    | false =>
      simp only [Bool.false_eq_true, if_false]
      rw [hset]
      exact ih (setRotation g i r) w v
    | true =>
      simp only [if_true]
      have hplaced : boardSet (setRotation (boardSet g x y v) i r) x y (some i)
          = boardSet (setRotation g i r) x y (some i) := by
        rw [hset]
        exact boardSet_boardSet (setRotation g i r) x y v (some i)
      rw [hplaced]
      exact ⟨rfl, rfl, Or.inl rfl⟩

theorem tryTiles_target_indep (descend : SearchFn) (x y : Nat) :
    ∀ (is : List Nat) (g : Game) (w : WState) (v : Option Nat),
      (tryTiles descend x y (boardSet g x y v) w is).1 = (tryTiles descend x y g w is).1 ∧
      (tryTiles descend x y (boardSet g x y v) w is).2.2 = (tryTiles descend x y g w is).2.2 ∧
      ((tryTiles descend x y (boardSet g x y v) w is).2.1
          = (tryTiles descend x y g w is).2.1 ∨
        (tryTiles descend x y (boardSet g x y v) w is).2.1
          = boardSet (tryTiles descend x y g w is).2.1 x y v) := by
  intro is
  induction is with
  | nil =>
    intro g w v
    exact ⟨rfl, rfl, Or.inr rfl⟩
  | cons i is ih =>
    intro g w v
    simp only [tryTiles]
    have hused : usedOf (boardSet g x y v) i = usedOf g i := rfl
    rw [hused]
    cases hu : usedOf g i with
    | true =>
      simp only [if_true]
      exact ih g w v
    | false =>
      simp only [Bool.false_eq_true, if_false]
      have hset : setUsed (boardSet g x y v) i true = boardSet (setUsed g i true) x y v :=
        (boardSet_setUsed_comm g i true x y v).symm
      rw [hset]
      have hrots := tryRots_target_indep descend x y i [0, 1, 2, 3] (setUsed g i true) w v
      rw [hrots.1]
      cases hr : (tryRots descend x y i (setUsed g i true) w [0, 1, 2, 3]).1 with
      | true =>
        simp only [if_true]
        exact ⟨hrots.1, hrots.2.1, hrots.2.2⟩
      | false =>
        simp only [Bool.false_eq_true, if_false]
        rw [hrots.2.1]
        rcases hrots.2.2 with heq | heq
        · rw [heq]
          exact ⟨rfl, rfl, Or.inl rfl⟩
        · rw [heq]
          have hset2 : setUsed
              (boardSet (tryRots descend x y i (setUsed g i true) w [0, 1, 2, 3]).2.1 x y v)
              i false
              = boardSet
                (setUsed (tryRots descend x y i (setUsed g i true) w [0, 1, 2, 3]).2.1 i false)
                x y v :=
            (boardSet_setUsed_comm _ i false x y v).symm
          rw [hset2]
          exact ih _ _ v

theorem play_target_indep (fuel : Nat) (g : Game) (w : WState) (x y : Nat) (v : Option Nat) :
    (play fuel (boardSet g x y v) w x y).1 = (play fuel g w x y).1 ∧
    (play fuel (boardSet g x y v) w x y).2.2 = (play fuel g w x y).2.2 ∧
    ((play fuel (boardSet g x y v) w x y).2.1 = (play fuel g w x y).2.1 ∨
      (play fuel (boardSet g x y v) w x y).2.1 = boardSet (play fuel g w x y).2.1 x y v) := by
  cases fuel with
  | zero => exact ⟨rfl, rfl, Or.inr rfl⟩
  | succ fuel =>
    simp only [play]
    cases hstop : w.global_stop with
    | true =>
      simp only [if_true]
      refine ⟨by simp, by simp, Or.inr (by simp)⟩
    | false =>
      simp only [Bool.false_eq_true, if_false]
      cases hpr : ((w.check_counter + 1) % 1000 == 0 && !List.isEmpty w.inbox) with
      | true =>
        simp only [if_true]
        refine ⟨by simp, by simp, Or.inr (by simp)⟩
      | false =>
        simp only [Bool.false_eq_true, if_false]
        cases hgs : w.global_solution_found with
        | true =>
          simp only [if_true]
          refine ⟨by simp, by simp, Or.inr (by simp)⟩
        | false =>
          simp only [Bool.false_eq_true, if_false]
          have htc : (boardSet g x y v).tile_count = g.tile_count := rfl
          rw [htc]
          exact tryTiles_target_indep (play fuel) x y (List.range g.tile_count) g _ v

/-- Claim C6: neither the search step nor `valid_move` ever inspects the
occupant of the target cell.  First conjunct: `valid_move` at (x, y) is
unchanged by any rewrite of cell (x, y).  Second conjunct: `play` at
(x, y) is insensitive to the initial content of its target cell — the
result flag, the worker state (messages included) and the final tiles
coincide, and the final boards coincide everywhere off the target cell.
Third conjunct: concretely, worker 0 of `P1` seeds tile 0 at the NE
corner (1, 0); the advance rule reaches that occupied cell (state `gCE`,
where candidate tile 2 satisfies `valid_move` at the occupied cell and
is placed over it), and the run ends with the stored corner-tile
reference gone — cell (1, 0) ends empty, not holding tile 0. -/
theorem target_cell_never_inspected :
    (∀ (g : Game) (x y : Nat) (v : Option Nat) (t : Tile),
        valid_move (boardSet g x y v) x y t = valid_move g x y t) ∧
    (∀ (fuel : Nat) (g : Game) (w : WState) (x y : Nat) (v : Option Nat),
        (play fuel (boardSet g x y v) w x y).1 = (play fuel g w x y).1 ∧
        (play fuel (boardSet g x y v) w x y).2.2 = (play fuel g w x y).2.2 ∧
        (play fuel (boardSet g x y v) w x y).2.1.tiles = (play fuel g w x y).2.1.tiles ∧
        boardSet (play fuel (boardSet g x y v) w x y).2.1 x y none
          = boardSet (play fuel g w x y).2.1 x y none) ∧
    ((worker_run (initialize_game P1) (separar_pecas_de_quina (initialize_game P1)) 0 1).1
        = false ∧
      boardGet (seed_board (initialize_game P1) ⟨0, 0, 1⟩) 1 0 = some 0 ∧
      boardGet (worker_run (initialize_game P1)
        (separar_pecas_de_quina (initialize_game P1)) 0 1).2.1 1 0 = none ∧
      boardGet gCE 1 0 = some 0 ∧
      valid_move gCE 1 0 (tileAt gCE 2) = true) := by
  refine ⟨valid_move_ignores_target, ?_, ?_⟩
  · intro fuel g w x y v
    obtain ⟨h1, h2, h3⟩ := play_target_indep fuel g w x y v
    refine ⟨h1, h2, ?_, ?_⟩
    · rcases h3 with h | h
      · rw [h]
      · rw [h]
        rfl
    · rcases h3 with h | h
      · rw [h]
      · rw [h, boardSet_boardSet]
  · exact ⟨by decide, by decide, by decide, by decide, by decide⟩

/-! ## Trial order (claim C3) -/

theorem setUsed_same (g : Game) (i : Nat) (b : Bool) (h : usedOf g i = b) :
    setUsed g i b = g := by
  show Game.mk g.size g.tile_count g.board _ = g
  have heta : { tileAt g i with used := b } = tileAt g i := by
    unfold usedOf at h
    cases ht : tileAt g i
    rw [ht] at h
    simp_all
  rw [heta]
  rw [show g.tiles.set i (tileAt g i) = g.tiles from listSet_getD_self g.tiles i default]

theorem usedOf_setUsed_false_self (g : Game) (i : Nat) :
    usedOf (setUsed g i false) i = false := by
  by_cases hl : i < g.tiles.length
  · exact usedOf_setUsed_self g i false hl
  · rw [setUsed_oob g i false (by omega)]
    unfold usedOf
    rw [tileAt_oob g i (by omega)]
    rfl

theorem xColor_congr (t t' : Tile) (hc : t'.colors = t.colors)
    (hr : t'.rotation = t.rotation) (s : Nat) : xColor t' s = xColor t s := by
  unfold xColor
  rw [hc, hr]

theorem nbrCheck_congr (g g' : Game) (hb : g'.board = g.board)
    (hts : ∀ j, (tileAt g' j).colors = (tileAt g j).colors ∧
      (tileAt g' j).rotation = (tileAt g j).rotation)
    (a b : Nat) (f : Tile → Nat)
    (hf : ∀ u u' : Tile, u'.colors = u.colors → u'.rotation = u.rotation → f u' = f u)
    (c : Nat) : nbrCheck g' a b f c = nbrCheck g a b f c := by
  unfold nbrCheck boardGet
  rw [hb]
  cases hsc : (g.board.getD a []).getD b none with
  | none => rfl
  | some j =>
    show (f (tileAt g' j) != c) = (f (tileAt g j) != c)
    rw [hf (tileAt g j) (tileAt g' j) (hts j).1 (hts j).2]

theorem valid_move_congr_used (g g' : Game) (hsz : g'.size = g.size)
    (hb : g'.board = g.board)
    (hts : ∀ j, (tileAt g' j).colors = (tileAt g j).colors ∧
      (tileAt g' j).rotation = (tileAt g j).rotation)
    (t t' : Tile) (hc : t'.colors = t.colors) (hr : t'.rotation = t.rotation)
    (x y : Nat) : valid_move g' x y t' = valid_move g x y t := by
  unfold valid_move
  rw [hsz]
  rw [show wColor t' = wColor t from xColor_congr t t' hc hr 3,
    show nColor t' = nColor t from xColor_congr t t' hc hr 0,
    show eColor t' = eColor t from xColor_congr t t' hc hr 1,
    show sColor t' = sColor t from xColor_congr t t' hc hr 2]
  rw [nbrCheck_congr g g' hb hts (x - 1) y eColor
      (fun u u' h1 h2 => xColor_congr u u' h1 h2 1) (wColor t),
    nbrCheck_congr g g' hb hts (x + 1) y wColor
      (fun u u' h1 h2 => xColor_congr u u' h1 h2 3) (eColor t),
    nbrCheck_congr g g' hb hts x (y - 1) sColor
      (fun u u' h1 h2 => xColor_congr u u' h1 h2 2) (nColor t),
    nbrCheck_congr g g' hb hts x (y + 1) nColor
      (fun u u' h1 h2 => xColor_congr u u' h1 h2 0) (sColor t)]

theorem spec_try_append (descend : SearchFn) (x y : Nat) :
    ∀ (c1 c2 : List (Nat × Nat)) (g : Game) (w : WState),
      spec_try descend x y g w (c1 ++ c2) =
        (if (spec_try descend x y g w c1).1 then spec_try descend x y g w c1
         else spec_try descend x y (spec_try descend x y g w c1).2.1
           (spec_try descend x y g w c1).2.2 c2) := by
  intro c1
  induction c1 with
  | nil =>
    intro c2 g w
    simp [spec_try]
  | cons c cs ih =>
    intro c2 g w
    rw [List.cons_append]
    simp only [spec_try]
    cases hv : valid_move (setRotation g c.1 c.2) x y (tileAt (setRotation g c.1 c.2) c.1) with
    | false =>
      simp only [Bool.false_eq_true, if_false]
      exact ih c2 (setRotation g c.1 c.2) w
    | true =>
      simp only [if_true]
      cases hr : (descendStep descend
          (boardSet (setUsed (setRotation g c.1 c.2) c.1 true) x y (some c.1)) w x y).1 with
      | true => simp only [hr, if_true]
      | false =>
        simp only [hr, Bool.false_eq_true, if_false]
        exact ih c2 _ _

theorem spec_try_rots (descend : SearchFn) (hd : unwind_ok descend) (hg : game_ok descend)
    (x y i : Nat) :
    ∀ (rs : List Nat) (g : Game) (w : WState), usedOf g i = false →
      spec_try descend x y g w (rs.map (fun r => (i, r))) =
        (if (tryRots descend x y i (setUsed g i true) w rs).1 then
          tryRots descend x y i (setUsed g i true) w rs
         else (false, setUsed (tryRots descend x y i (setUsed g i true) w rs).2.1 i false,
           (tryRots descend x y i (setUsed g i true) w rs).2.2)) := by
  intro rs
  induction rs with
  | nil =>
    intro g w hu
    simp only [List.map_nil, spec_try, tryRots, Bool.false_eq_true, if_false]
    rw [setUsed_setUsed g i true false, setUsed_same g i false hu]
  | cons r rs ih =>
    intro g w hu
    simp only [List.map_cons, spec_try, tryRots]
    have hcomm : setRotation (setUsed g i true) i r = setUsed (setRotation g i r) i true :=
      (setUsed_setRotation_comm g i r true).symm
    have hcond : valid_move (setRotation (setUsed g i true) i r) x y
          (tileAt (setRotation (setUsed g i true) i r) i)
        = valid_move (setRotation g i r) x y (tileAt (setRotation g i r) i) := by
      rw [hcomm]
      exact valid_move_congr_used (setRotation g i r)
        (setUsed (setRotation g i r) i true) rfl rfl
        (fun j => ⟨(tile_fields_setUsed (setRotation g i r) i true j).1,
          (tile_fields_setUsed (setRotation g i r) i true j).2.1⟩)
        (tileAt (setRotation g i r) i) _
        (tile_fields_setUsed (setRotation g i r) i true i).1
        (tile_fields_setUsed (setRotation g i r) i true i).2.1 x y
    rw [hcond]
    cases hv : valid_move (setRotation g i r) x y (tileAt (setRotation g i r) i) with
    | false =>
      simp only [Bool.false_eq_true, if_false]
      have hrec := ih (setRotation g i r) w
        (by rw [usedOf_setRotation g i r i]; exact hu)
      rw [hrec, hcomm]
    | true =>
      simp only [if_true]
      have hplace : boardSet (setRotation (setUsed g i true) i r) x y (some i)
          = boardSet (setUsed (setRotation g i r) i true) x y (some i) := by
        rw [hcomm]
      rw [hplace]
      cases hr : (descendStep descend
          (boardSet (setUsed (setRotation g i r) i true) x y (some i)) w x y).1 with
      | true => simp only [hr, if_true]
      | false =>
        simp only [hr, Bool.false_eq_true, if_false]
        have hXcollapse : setUsed (setUsed
            (boardSet (descendStep descend
              (boardSet (setUsed (setRotation g i r) i true) x y (some i)) w x y).2.1
              x y none) i false) i true
            = boardSet (descendStep descend
              (boardSet (setUsed (setRotation g i r) i true) x y (some i)) w x y).2.1
              x y none := by
          rw [setUsed_setUsed]
          by_cases hl : i < g.tiles.length
          · apply setUsed_same
            show usedOf (descendStep descend
              (boardSet (setUsed (setRotation g i r) i true) x y (some i)) w x y).2.1 i = true
            rw [(descendStep_unwind descend hd
                (boardSet (setUsed (setRotation g i r) i true) x y (some i)) w x y hr).1 i]
            show usedOf (setUsed (setRotation g i r) i true) i = true
            exact usedOf_setUsed_self (setRotation g i r) i true
              (by rw [length_tiles_setRotation]; omega)
          · apply setUsed_oob
            have hlen : (descendStep descend
                (boardSet (setUsed (setRotation g i r) i true) x y
                  (some i)) w x y).2.1.tiles.length = g.tiles.length := by
              rw [(descendStep_game_ok descend hg
                (boardSet (setUsed (setRotation g i r) i true) x y (some i)) w x y).2.2.1]
              show (setUsed (setRotation g i r) i true).tiles.length = g.tiles.length
              rw [length_tiles_setUsed, length_tiles_setRotation]
            show (descendStep descend
              (boardSet (setUsed (setRotation g i r) i true) x y
                (some i)) w x y).2.1.tiles.length ≤ i
            omega
        have hrec := ih
          (setUsed (boardSet (descendStep descend
            (boardSet (setUsed (setRotation g i r) i true) x y (some i)) w x y).2.1
            x y none) i false)
          (descendStep descend
            (boardSet (setUsed (setRotation g i r) i true) x y (some i)) w x y).2.2
          (usedOf_setUsed_false_self _ i)
        rw [hrec, hXcollapse]

theorem tryTiles_eq_spec (descend : SearchFn) (hd : unwind_ok descend) (hg : game_ok descend)
    (x y : Nat) :
    ∀ (is : List Nat) (g : Game) (w : WState),
      tryTiles descend x y g w is =
        spec_try descend x y g w
          ((is.filter (fun j => !(usedOf g j))).flatMap
            (fun j => [0, 1, 2, 3].map (fun r => (j, r)))) := by
  intro is
  induction is with
  | nil =>
    intro g w
    rfl
  | cons i is ih =>
    intro g w
    rw [List.filter_cons]
    cases hu : usedOf g i with
    | true =>
      simp only [hu, Bool.not_true, Bool.false_eq_true, if_false]
      simp only [tryTiles, hu, if_true]
      exact ih g w
    | false =>
      simp only [hu, Bool.not_false, if_true]
      rw [List.flatMap_cons]
      rw [spec_try_append descend x y _ _ g w]
      rw [spec_try_rots descend hd hg x y i [0, 1, 2, 3] g w hu]
      simp only [tryTiles, hu, Bool.false_eq_true, if_false]
      cases hr : (tryRots descend x y i (setUsed g i true) w [0, 1, 2, 3]).1 with
      | true => simp only [hr, if_true]
      | false =>
        simp only [hr, Bool.false_eq_true, if_false]
        rw [ih (setUsed (tryRots descend x y i (setUsed g i true) w [0, 1, 2, 3]).2.1 i false)
          (tryRots descend x y i (setUsed g i true) w [0, 1, 2, 3]).2.2]
        have hfil : is.filter (fun j => !(usedOf
            (setUsed (tryRots descend x y i (setUsed g i true) w [0, 1, 2, 3]).2.1 i false) j))
            = is.filter (fun j => !(usedOf g j)) := by
          apply List.filter_congr
          intro j hj
          by_cases hij : i = j
          · subst hij
            rw [usedOf_setUsed_false_self, hu]
          · rw [usedOf_setUsed_ne _ i j false hij]
            rw [(tryRots_unwind descend hd x y i [0, 1, 2, 3] (setUsed g i true) w hr).1 j]
            rw [usedOf_setUsed_ne g i j true hij]
        rw [hfil]

/-- Claim C3: at each target cell the search tries candidates in
ascending (tile id, rotation) order over the unused tiles with rotations
0..3, places the first pair satisfying `can_place`, marks the tile used
and advances.  First conjunct: the engine's cell step (the tile loop
over `0 .. tile_count - 1` with its inner rotation loop) equals the
spec-side trial of the explicit flattened candidate list
`spec_cand_list` — unused tiles ascending, rotations 0..3 within each —
tried strictly in list order with first-fit placement; this holds at
every cell and state, hence at every cell reached during the search.
Second conjunct: an entered `play` call (stop flags clear, empty
mailbox) is exactly that cell step. -/
theorem play_trial_order :
    (∀ (fuel x y : Nat) (g : Game) (w : WState),
        tryTiles (play fuel) x y g w (List.range g.tile_count) =
          spec_try (play fuel) x y g w (spec_cand_list g)) ∧
    (∀ (fuel x y : Nat) (g : Game) (w : WState),
        w.global_stop = false → w.global_solution_found = false → w.inbox = [] →
        play (fuel + 1) g w x y =
          tryTiles (play fuel) x y g { w with check_counter := w.check_counter + 1 }
            (List.range g.tile_count)) := by
  constructor
  · intro fuel x y g w
    exact tryTiles_eq_spec (play fuel) (play_unwind fuel) (play_game_ok fuel) x y
      (List.range g.tile_count) g w
  · intro fuel x y g w h1 h2 h3
    simp only [play, h1, Bool.false_eq_true, if_false]
    simp only [h3, List.isEmpty_nil, Bool.not_true, Bool.and_false, Bool.false_eq_true,
      if_false]
    simp only [h2, Bool.false_eq_true, if_false]

theorem play_trial_order_witness :
    (tryTiles (play 9) 1 0 gCE (init_wstate 0 1) (List.range gCE.tile_count) =
      spec_try (play 9) 1 0 gCE (init_wstate 0 1) (spec_cand_list gCE)) ∧
    ((init_wstate 0 1).global_stop = false ∧
      (init_wstate 0 1).global_solution_found = false ∧
      (init_wstate 0 1).inbox = [] ∧
      play 10 gCE (init_wstate 0 1) 1 0 =
        tryTiles (play 9) 1 0 gCE
          { init_wstate 0 1 with check_counter := (init_wstate 0 1).check_counter + 1 }
          (List.range gCE.tile_count)) :=
  ⟨play_trial_order.1 9 1 0 gCE (init_wstate 0 1),
    by decide, by decide, by decide,
    play_trial_order.2 9 1 0 gCE (init_wstate 0 1) (by decide) (by decide) (by decide)⟩

end Eternity
